import Mathlib

/-!
Verification of the QuizEngine model (src/assets/js/model.js) and the
difficulty helpers of the controller (src/assets/js/controller.js).

Embedding conventions:
* JS arrays become Lean lists; JS objects become structures.
* Math.random driven choices are modelled by an explicit stream of natural
  numbers (structure Rand below): a pick of the form
  Math.floor(Math.random() * n) becomes (stream value) % n, and theorems
  quantify over every stream, hence over every possible random outcome.
* Country records keep the fields that the verified functions read
  (name, population, popularity, currencies, languages); fields the model
  merely copies for display (capital, area, region, timezones, flags) are
  not read by any verified function and are omitted.
* JS numbers that hold populations are naturals.  Math.round(v * m) for the
  fallback multipliers 0.55, 0.75, 1.2, 1.4, 1.8 is modelled exactly over
  the rationals as (v * num + den / 2) / den with den = 100, which is
  round-half-up of v * (num / den).
* Fallible or possibly diverging code returns Option: the while loop of
  generatePopulationOptions is given fuel, and a result of none means the
  loop did not finish within that fuel (for no amount of fuel, in the
  divergence theorem below).
-/

namespace QuizModel

/-- Country record as produced by loadFromRestCountries in model.js. -/
structure Country where
  name : String
  population : Nat
  popularity : Nat
  currencies : List String
  languages : List String
deriving Repr, DecidableEq

/-- Value stored in an answer option: a population number or a text label. -/
inductive JSValue where
  | num (n : Nat)
  | str (s : String)
deriving Repr, DecidableEq

/-- Answer option object with a display label and an underlying value. -/
structure AnswerOption where
  label : String
  value : JSValue
deriving Repr, DecidableEq

/-- Question object returned by the build*Question methods of model.js. -/
structure Question where
  qtype : String
  country : String
  question : String
  options : List AnswerOption
  correctIndex : Nat
  correctAnswerLabel : String
  explanation : String
deriving Repr, DecidableEq

/-- Explicit source of randomness: a stream of naturals and a cursor.
Each call to Math.random consumes one stream element. -/
structure Rand where
  stream : Nat → Nat
  cursor : Nat

/-- Draw of Math.floor(Math.random() * n): a value below n (for n > 0),
together with the advanced generator. -/
def Rand.next (r : Rand) (n : Nat) : Nat × Rand :=
  (r.stream r.cursor % n, ⟨r.stream, r.cursor + 1⟩)

/-- Exchange of the entries at positions i and j, as performed by the
destructuring swap inside shuffleArray. Out-of-range indices leave the
list unchanged (they never occur in the calls made by shuffleArray). -/
def swapAt (l : List α) (i j : Nat) : List α :=
  match l[i]?, l[j]? with
  | some a, some b => (l.set i b).set j a
  | _, _ => l

/-- Loop of shuffleArray: for (let i = length - 1; i > 0; i--) pick a
random j in [0, i] and swap positions i and j. The argument n is the
current loop index i. -/
def fyLoop (l : List α) (r : Rand) : Nat → List α × Rand
  | 0 => (l, r)
  | i + 1 =>
    let (j, r') := r.next (i + 2)
    fyLoop (swapAt l (i + 1) j) r' i

/-- Model of QuizEngine.shuffleArray: a Fisher-Yates shuffle of a copy of
the input array. The function is pure, so the input list itself is
untouched by construction. -/
def shuffleArray (r : Rand) (l : List α) : List α × Rand :=
  fyLoop l r (l.length - 1)

theorem swapAt_perm [DecidableEq α] (l : List α) (i j : Nat) :
    (swapAt l i j).Perm l := by
  unfold swapAt
  cases hi : l[i]? with
  | none => exact List.Perm.refl l
  | some a =>
    cases hj : l[j]? with
    | none => exact List.Perm.refl l
    | some b =>
      rw [List.getElem?_eq_some_iff] at hi hj
      obtain ⟨hi', ha⟩ := hi
      obtain ⟨hj', hb⟩ := hj
      subst ha
      subst hb
      have hj'' : j < (l.set i l[j]).length := by simpa using hj'
      rw [List.perm_iff_count]
      intro c
      have h1 := List.count_set (l[i]) c (l.set i (l[j])) j hj''
      have h2 := List.count_set (l[j]) c l i hi'
      have hgs : (l.set i (l[j]))[j] = l[j] := by
        rw [List.getElem_set]
        split <;> rfl
      have hcount1 : (if l[i] = c then 1 else 0) ≤ l.count c := by
        split
        · rename_i h
          exact List.count_pos_iff.mpr (h ▸ l.getElem_mem hi')
        · exact Nat.zero_le _
      simp only [beq_iff_eq] at h1 h2
      rw [hgs] at h1
      show List.count c ((l.set i (l[j])).set j (l[i])) = List.count c l
      rw [h1, h2]
      split_ifs at hcount1 ⊢ <;> omega

theorem fyLoop_perm [DecidableEq α] (n : Nat) :
    ∀ (l : List α) (r : Rand), (fyLoop l r n).1.Perm l := by
  induction n with
  | zero => intro l r; exact List.Perm.refl l
  | succ i ih =>
    intro l r
    show (fyLoop (swapAt l (i + 1) (r.next (i + 2)).1) (r.next (i + 2)).2 i).1.Perm l
    exact (ih _ _).trans (swapAt_perm l (i + 1) _)

/-- Claim C8: shuffleArray returns a permutation of its input (same length
and same multiset of elements); since the embedding is pure and the JS code
copies the array before mutating, the input list is left unmodified. -/
theorem shuffleArray_perm [DecidableEq α] (r : Rand) (l : List α) :
    (shuffleArray r l).1.Perm l :=
  fyLoop_perm (l.length - 1) l r

/-- First-occurrence deduplication with an explicit seen set, modelling
Array.from(new Set(xs)) in buildPopulationQuestion. -/
def dedupFirst [DecidableEq α] (seen : List α) : List α → List α
  | [] => []
  | a :: rest =>
    if a ∈ seen then dedupFirst seen rest else a :: dedupFirst (a :: seen) rest

/-- Model of the filter in buildCurrencyQuestion and buildLanguagesQuestion
that keeps the first occurrence of every non-empty label (the test
Boolean(label) and array.indexOf(label) === index). -/
def uniqueLabelsAux (seen : List String) : List String → List String
  | [] => []
  | a :: rest =>
    if a = "" then uniqueLabelsAux seen rest
    else if a ∈ seen then uniqueLabelsAux seen rest
    else a :: uniqueLabelsAux (a :: seen) rest

/-- Entry point of the unique-label filter with an empty seen set. -/
def uniqueLabels (l : List String) : List String := uniqueLabelsAux [] l

/-- Model of the body of QuizEngine.uniqueByName: keep the first country
carrying each name and drop countries whose name is empty (the JS test
for a falsy country.name). -/
def uniqueByNameAux (seen : List String) : List Country → List Country
  | [] => []
  | c :: rest =>
    if c.name = "" then uniqueByNameAux seen rest
    else if c.name ∈ seen then uniqueByNameAux seen rest
    else c :: uniqueByNameAux (c.name :: seen) rest

/-- Model of QuizEngine.uniqueByName. -/
def uniqueByName (l : List Country) : List Country := uniqueByNameAux [] l

/-- Model of QuizEngine.hasDataForType. Number.isFinite always holds for a
natural population, and Boolean of a string means the string is non-empty. -/
def hasDataForType (c : Country) (qtype : String) : Bool :=
  if qtype = "population" then decide (0 < c.population)
  else if qtype = "currency" then !c.currencies.isEmpty && c.currencies.headD "" != ""
  else if qtype = "languages" then !c.languages.isEmpty && c.languages.headD "" != ""
  else false

/-- Inner collection step of collectUniqueValues over the item array of one
country. In the JS code the seen set and the values array always hold the
same elements, so one list serves as both. -/
def addValues (acc : List String) : List String → List String
  | [] => acc
  | item :: rest =>
    if item = "" then addValues acc rest
    else if item ∈ acc then addValues acc rest
    else addValues (acc ++ [item]) rest

/-- Model of QuizEngine.collectUniqueValues for a list-valued key
(currencies or languages), excluding the named country. -/
def collectUniqueValues (key : Country → List String) (pool : List Country)
    (excludeCountryName : String) : List String :=
  pool.foldl (fun acc c => if c.name = excludeCountryName then acc else addValues acc (key c)) []

theorem length_eraseIdx_lt {l : List α} {j : Nat} (hj : j < l.length) :
    (l.eraseIdx j).length < l.length := by
  rw [List.length_eraseIdx]
  simp [hj]
  omega

/-- Body of the first while loop of generatePopulationOptions: splice a
random entry out of the unique candidate list, keeping it as a distractor
when it differs from the correct value. The structural counter n equals
the length of the remaining candidate list (the splice removes exactly
one entry per iteration), so the recursion mirrors the JS loop exactly. -/
def popDrawLoopN (correct : Nat) : Nat → Rand → List Nat → List Nat → List Nat × Rand
  | 0, r, _, ds => (ds, r)
  | n + 1, r, cands, ds =>
    match cands with
    | [] => (ds, r)
    | c0 :: rest =>
      if ds.length < 3 then
        let i := (r.next (c0 :: rest).length).1
        let r' := (r.next (c0 :: rest).length).2
        let cand := (c0 :: rest).getD i 0
        let cands' := (c0 :: rest).eraseIdx i
        if cand = correct then popDrawLoopN correct n r' cands' ds
        else popDrawLoopN correct n r' cands' (ds ++ [cand])
      else (ds, r)

/-- Model of the first while loop of generatePopulationOptions. -/
def popDrawLoop (r : Rand) (cands ds : List Nat) (correct : Nat) : List Nat × Rand :=
  popDrawLoopN correct cands.length r cands ds

/-- Body of the first while loop of generateCurrencyOptions and
generateLanguageOptions: splice random candidates, keeping those not yet
among the distractors, until three are found or the candidates run out.
The structural counter n equals the length of the remaining candidates. -/
def labelDrawLoopN : Nat → Rand → List String → List String → List String × Rand
  | 0, r, _, ds => (ds, r)
  | n + 1, r, cands, ds =>
    match cands with
    | [] => (ds, r)
    | c0 :: rest =>
      if ds.length < 3 then
        if (c0 :: rest).getD ((r.next (c0 :: rest).length).1) "" ∈ ds then
          labelDrawLoopN n (r.next (c0 :: rest).length).2
            ((c0 :: rest).eraseIdx ((r.next (c0 :: rest).length).1)) ds
        else
          labelDrawLoopN n (r.next (c0 :: rest).length).2
            ((c0 :: rest).eraseIdx ((r.next (c0 :: rest).length).1))
            (ds ++ [(c0 :: rest).getD ((r.next (c0 :: rest).length).1) ""])
      else (ds, r)

/-- Model of the first while loop of generateCurrencyOptions and
generateLanguageOptions. -/
def labelDrawLoop (r : Rand) (cands ds : List String) : List String × Rand :=
  labelDrawLoopN cands.length r cands ds

/-- Fallback multipliers 0.55, 0.75, 1.2, 1.4 and 1.8 of
generatePopulationOptions, as exact fractions numerator / denominator. -/
def fallbackMultipliers : List (Nat × Nat) :=
  [(55, 100), (75, 100), (120, 100), (140, 100), (180, 100)]

/-- Synthetic distractor Math.max(100000, Math.round(correct * multiplier)),
with Math.round modelled as round-half-up over exact rationals. -/
def synthCandidate (correct : Nat) (m : Nat × Nat) : Nat :=
  max 100000 ((correct * m.1 + m.2 / 2) / m.2)

/-- Fuelled model of the second while loop of generatePopulationOptions; a
result of none means the loop did not finish within the given fuel. -/
def popFallbackLoop (correct : Nat) : Nat → List Nat → Nat → Option (List Nat)
  | 0, _, _ => none
  | fuel + 1, ds, mIdx =>
    if ds.length < 3 then
      let m := fallbackMultipliers.getD (mIdx % fallbackMultipliers.length) (0, 1)
      let cand := synthCandidate correct m
      if cand ∈ correct :: ds then popFallbackLoop correct fuel ds (mIdx + 1)
      else popFallbackLoop correct fuel (ds ++ [cand]) (mIdx + 1)
    else some ds

/-- Model of QuizEngine.generatePopulationOptions. -/
def generatePopulationOptions (fuel : Nat) (r : Rand) (correctValue : Nat)
    (pool : List Country) (countryName : String) : Option (List Nat × Rand) :=
  let candidates :=
    (pool.filter (fun c => c.name != countryName && hasDataForType c "population")).map
      (·.population)
  let uniqueCandidates := dedupFirst [] candidates
  let ds := (popDrawLoop r uniqueCandidates [] correctValue).1
  let r' := (popDrawLoop r uniqueCandidates [] correctValue).2
  match popFallbackLoop correctValue fuel ds 0 with
  | none => none
  | some ds' => some (correctValue :: ds', r')

/-- Hard coded fallback currencies of generateCurrencyOptions. -/
def fallbackCurrencies : List String :=
  ["Euro", "United States dollar", "Yen", "Pound sterling", "Rupee"]

/-- Hard coded fallback languages of generateLanguageOptions. -/
def fallbackLanguages : List String :=
  ["English", "Spanish", "French", "Arabic", "Hindi", "Portuguese", "Russian", "Chinese"]

/-- Model of the for loop over the hard coded fallback list in
generateCurrencyOptions and generateLanguageOptions. -/
def fillFromFallback (correct : String) (ds : List String) : List String → List String
  | [] => ds
  | f :: rest =>
    if 3 ≤ ds.length then ds
    else if f ≠ correct ∧ f ∉ ds then fillFromFallback correct (ds ++ [f]) rest
    else fillFromFallback correct ds rest

/-- Model of QuizEngine.generateCurrencyOptions. -/
def generateCurrencyOptions (r : Rand) (correctCurrency : String)
    (pool : List Country) (countryName : String) : List String × Rand :=
  let candidates :=
    (collectUniqueValues Country.currencies pool countryName).filter (· != correctCurrency)
  let ds := (labelDrawLoop r candidates []).1
  let r' := (labelDrawLoop r candidates []).2
  let ds' := fillFromFallback correctCurrency ds fallbackCurrencies
  ((correctCurrency :: ds').take 4, r')

/-- Model of QuizEngine.generateLanguageOptions. -/
def generateLanguageOptions (r : Rand) (correctLanguage : String)
    (pool : List Country) (countryName : String) : List String × Rand :=
  let candidates :=
    (collectUniqueValues Country.languages pool countryName).filter (· != correctLanguage)
  let ds := (labelDrawLoop r candidates []).1
  let r' := (labelDrawLoop r candidates []).2
  let ds' := fillFromFallback correctLanguage ds fallbackLanguages
  ((correctLanguage :: ds').take 4, r')

/-- Model of QuizEngine.formatPopulation. The JS toLocaleString inserts
locale dependent digit separators; the embedding keeps the plain digits,
which is injective on numbers exactly like the JS formatting. -/
def formatPopulation (value : Nat) : String := toString value ++ " people"

/-- Model of QuizEngine.buildPopulationQuestion. The outer Option is fuel
exhaustion inside generatePopulationOptions; the inner Option is the JS
null result. -/
def buildPopulationQuestion (fuel : Nat) (r : Rand) (country : Country)
    (pool : List Country) : Option (Option Question × Rand) :=
  if !hasDataForType country "population" then some (none, r)
  else
    let correctValue := country.population
    match generatePopulationOptions fuel r correctValue pool country.name with
    | none => none
    | some (rawOptions, r') =>
      let uniqueOptions := (dedupFirst [] rawOptions).take 4
      if correctValue ∉ uniqueOptions ∨ uniqueOptions.length < 4 then some (none, r')
      else
        let optionObjects :=
          uniqueOptions.map (fun v => { label := formatPopulation v, value := JSValue.num v })
        let shuffledOptions := (shuffleArray r' optionObjects).1
        let r'' := (shuffleArray r' optionObjects).2
        let correctIndex := shuffledOptions.findIdx (fun o => o.value == JSValue.num correctValue)
        if correctIndex = shuffledOptions.length then some (none, r'')
        else some (some {
          qtype := "population"
          country := country.name
          question := "What is the population of " ++ country.name ++ "?"
          options := shuffledOptions
          correctIndex := correctIndex
          correctAnswerLabel := formatPopulation correctValue
          explanation := country.name ++ " has a population of about " ++
            formatPopulation correctValue ++ "." }, r'')

/-- Model of QuizEngine.buildCurrencyQuestion. -/
def buildCurrencyQuestion (r : Rand) (country : Country) (pool : List Country) :
    Option Question × Rand :=
  if !hasDataForType country "currency" then (none, r)
  else
    let correctCurrency := country.currencies.headD ""
    let optionLabels := (generateCurrencyOptions r correctCurrency pool country.name).1
    let r' := (generateCurrencyOptions r correctCurrency pool country.name).2
    let uniqueOptions := uniqueLabels optionLabels
    if correctCurrency ∉ uniqueOptions ∨ uniqueOptions.length < 4 then (none, r')
    else
      let optionObjects :=
        (uniqueOptions.take 4).map (fun l => { label := l, value := JSValue.str l })
      let shuffledOptions := (shuffleArray r' optionObjects).1
      let r'' := (shuffleArray r' optionObjects).2
      let correctIndex := shuffledOptions.findIdx (fun o => o.value == JSValue.str correctCurrency)
      if correctIndex = shuffledOptions.length then (none, r'')
      else (some {
        qtype := "currency"
        country := country.name
        question := "Which currency is used in " ++ country.name ++ "?"
        options := shuffledOptions
        correctIndex := correctIndex
        correctAnswerLabel := correctCurrency
        explanation := country.name ++ " uses the " ++ correctCurrency ++ "." }, r'')

/-- Model of QuizEngine.buildLanguagesQuestion. -/
def buildLanguagesQuestion (r : Rand) (country : Country) (pool : List Country) :
    Option Question × Rand :=
  if !hasDataForType country "languages" then (none, r)
  else
    let correctLanguage := country.languages.headD ""
    let optionLabels := (generateLanguageOptions r correctLanguage pool country.name).1
    let r' := (generateLanguageOptions r correctLanguage pool country.name).2
    let uniqueOptions := uniqueLabels optionLabels
    if correctLanguage ∉ uniqueOptions ∨ uniqueOptions.length < 4 then (none, r')
    else
      let optionObjects :=
        (uniqueOptions.take 4).map (fun l => { label := l, value := JSValue.str l })
      let shuffledOptions := (shuffleArray r' optionObjects).1
      let r'' := (shuffleArray r' optionObjects).2
      let correctIndex := shuffledOptions.findIdx (fun o => o.value == JSValue.str correctLanguage)
      if correctIndex = shuffledOptions.length then (none, r'')
      else (some {
        qtype := "languages"
        country := country.name
        question := "Which language is spoken in " ++ country.name ++ "?"
        options := shuffledOptions
        correctIndex := correctIndex
        correctAnswerLabel := correctLanguage
        explanation := correctLanguage ++ " is spoken in " ++ country.name ++ "." }, r'')

/-- Model of QuizEngine.buildQuestionForType; the default branch of the JS
switch returns null. -/
def buildQuestionForType (fuel : Nat) (qtype : String) (country : Country)
    (pool : List Country) (r : Rand) : Option (Option Question × Rand) :=
  if qtype = "population" then buildPopulationQuestion fuel r country pool
  else if qtype = "currency" then some (buildCurrencyQuestion r country pool)
  else if qtype = "languages" then some (buildLanguagesQuestion r country pool)
  else some (none, r)

/-- State of QuizEngine relevant to the verified operations; the score and
question counters are not read by any verified function and are omitted. -/
structure QuizEngine where
  countries : List Country
  countryPool : List Country
  difficulty : String
deriving Repr, DecidableEq

/-- Constant REST_COUNTRIES_SAMPLE_SIZE of model.js. -/
def REST_COUNTRIES_SAMPLE_SIZE : Nat := 10

/-- Fresh engine as set up by the QuizEngine constructor. -/
def QuizEngine.new : QuizEngine :=
  { countries := [], countryPool := [], difficulty := "easy" }

/-- Model of QuizEngine.getCountriesForType. -/
def getCountriesForType (e : QuizEngine) (r : Rand) (qtype : String)
    (desiredCount : Nat) : List Country × Rand :=
  let basePoolPair :=
    if e.countryPool.length ≠ 0 then (e.countryPool, r)
    else ((shuffleArray r e.countries).1.take (max desiredCount REST_COUNTRIES_SAMPLE_SIZE),
      (shuffleArray r e.countries).2)
  let basePool := basePoolPair.1
  let r' := basePoolPair.2
  let filteredBase := basePool.filter (hasDataForType · qtype)
  if 0 < filteredBase.length then (uniqueByName filteredBase, r')
  else
    let extended := e.countries.filter (hasDataForType · qtype)
    (uniqueByName (filteredBase ++ extended), r')

/-- First question loop of generateQuestionSet, over the shuffled available
countries; tried collects every visited name. -/
def qLoop1 (fuel : Nat) (qtype : String) (optionPool : List Country) (desiredCount : Nat) :
    List Country → List String → List Question → Rand →
    Option (List String × List Question × Rand)
  | [], tried, questions, r => some (tried, questions, r)
  | c :: rest, tried, questions, r =>
    if desiredCount ≤ questions.length then some (tried, questions, r)
    else if c.name ∈ tried then qLoop1 fuel qtype optionPool desiredCount rest tried questions r
    else
      match buildQuestionForType fuel qtype c optionPool r with
      | none => none
      | some (none, r') =>
        qLoop1 fuel qtype optionPool desiredCount rest (tried ++ [c.name]) questions r'
      | some (some q, r') =>
        qLoop1 fuel qtype optionPool desiredCount rest (tried ++ [c.name]) (questions ++ [q]) r'

/-- Second, fallback question loop of generateQuestionSet; unlike the first
loop it never consults tried, and records a name only when a question is
actually pushed. -/
def qLoop2 (fuel : Nat) (qtype : String) (optionPool : List Country) (desiredCount : Nat) :
    List Country → List String → List Question → Rand →
    Option (List String × List Question × Rand)
  | [], tried, questions, r => some (tried, questions, r)
  | c :: rest, tried, questions, r =>
    if desiredCount ≤ questions.length then some (tried, questions, r)
    else if !hasDataForType c qtype then
      qLoop2 fuel qtype optionPool desiredCount rest tried questions r
    else
      match buildQuestionForType fuel qtype c optionPool r with
      | none => none
      | some (none, r') => qLoop2 fuel qtype optionPool desiredCount rest tried questions r'
      | some (some q, r') =>
        qLoop2 fuel qtype optionPool desiredCount rest (tried ++ [c.name]) (questions ++ [q]) r'

/-- Model of QuizEngine.generateQuestionSet. -/
def generateQuestionSet (fuel : Nat) (e : QuizEngine) (r : Rand) (qtype : String)
    (desiredCount : Nat) : Option (List Question × Rand) :=
  let availableCountries := (getCountriesForType e r qtype desiredCount).1
  let r1 := (getCountriesForType e r qtype desiredCount).2
  if availableCountries.length = 0 then some ([], r1)
  else
    let shuffledAvailable := (shuffleArray r1 availableCountries).1
    let r2 := (shuffleArray r1 availableCountries).2
    let optionPool := uniqueByName (availableCountries ++ e.countries)
    match qLoop1 fuel qtype optionPool desiredCount shuffledAvailable [] [] r2 with
    | none => none
    | some (tried, questions, r3) =>
      if questions.length < desiredCount then
        let shuf := (shuffleArray r3 e.countries).1
        let r4 := (shuffleArray r3 e.countries).2
        let fallbackPool := shuf.filter (fun c => !tried.contains c.name)
        match qLoop2 fuel qtype optionPool desiredCount fallbackPool tried questions r4 with
        | none => none
        | some (_, questions2, r5) => some (questions2.take desiredCount, r5)
      else some (questions.take desiredCount, r3)

/-- Per-difficulty sampling settings from the QuizEngine constructor. -/
structure DifficultySetting where
  countries : Nat
  popularOnly : Bool
deriving Repr, DecidableEq

/-- Model of this.difficultySettings; indexing with any other string gives
undefined, modelled by none. -/
def difficultySettings (level : String) : Option DifficultySetting :=
  if level = "easy" then some { countries := 30, popularOnly := true }
  else if level = "medium" then some { countries := 100, popularOnly := false }
  else if level = "hard" then some { countries := 200, popularOnly := false }
  else none

/-- Comparator of the popularity sort in populateCountryPool: the JS
comparator (a, b) => b.popularity - a.popularity sorts by descending
popularity, with a stable sort. -/
def byPopularityDesc (a b : Country) : Bool := b.popularity ≤ a.popularity

/-- Candidate list drawn by populateCountryPool: the top countries by
popularity for the easy tier, a shuffled subset for the other tiers. -/
def candidateList (e : QuizEngine) (r : Rand) : List Country × Rand :=
  let settings := (difficultySettings e.difficulty).getD { countries := 30, popularOnly := true }
  if settings.popularOnly then
    ((e.countries.mergeSort byPopularityDesc).take settings.countries, r)
  else
    ((shuffleArray r e.countries).1.take (min settings.countries e.countries.length),
      (shuffleArray r e.countries).2)

/-- Events dispatched by the model: the CustomEvents quiz:pool-updated and
quiz:difficulty-changed. -/
inductive QuizEvent where
  | poolUpdated (pool : List Country)
  | difficultyChanged (difficulty : String)
deriving Repr, DecidableEq

/-- Model of QuizEngine.populateCountryPool: the new engine state, the
dispatched events in order, and the advanced generator. -/
def populateCountryPool (e : QuizEngine) (r : Rand) :
    QuizEngine × List QuizEvent × Rand :=
  if e.countries.length = 0 then
    ({ e with countryPool := [] }, [.poolUpdated []], r)
  else
    let cands := (candidateList e r).1
    let r' := (candidateList e r).2
    let shuffledCands := (shuffleArray r' cands).1
    let r'' := (shuffleArray r' cands).2
    let pool := shuffledCands.take REST_COUNTRIES_SAMPLE_SIZE
    ({ e with countryPool := pool }, [.poolUpdated pool], r'')

/-- Model of QuizEngine.setDifficulty. The level argument is an Option so
that none covers the JS null and undefined arguments; an empty string is
also falsy and a string outside the settings keys indexes to undefined. -/
def setDifficulty (e : QuizEngine) (r : Rand) (level : Option String) (reload : Bool) :
    QuizEngine × List QuizEvent × Rand :=
  match level with
  | none => (e, [], r)
  | some lvl =>
    if lvl = "" ∨ (difficultySettings lvl).isNone then (e, [], r)
    else
      let e' := { e with difficulty := lvl }
      if reload then
        let e'' := (populateCountryPool e' r).1
        let evs := (populateCountryPool e' r).2.1
        let r' := (populateCountryPool e' r).2.2
        (e'', evs ++ [.difficultyChanged e''.difficulty], r')
      else (e', [.difficultyChanged e'.difficulty], r)

/-- Model of QuizEngine.getDifficulty. -/
def getDifficulty (e : QuizEngine) : String := e.difficulty

/-- Model of difficultyOrder in controller.js. -/
def difficultyOrder : List String := ["easy", "medium", "hard"]

/-- Model of upgradeDifficulty in controller.js. List.indexOf returns the
list length when the element is absent, which satisfies the early-return
test exactly as the JS value -1 does. -/
def upgradeDifficulty (e : QuizEngine) (r : Rand) :
    QuizEngine × List QuizEvent × Rand :=
  let current := getDifficulty e
  let idx := difficultyOrder.indexOf current
  if difficultyOrder.length - 1 ≤ idx then (e, [], r)
  else setDifficulty e r (some (difficultyOrder.getD (idx + 1) "")) false

/-- Model of downgradeDifficulty in controller.js; the early return on
idx <= 0 covers both an absent difficulty and the easiest tier. -/
def downgradeDifficulty (e : QuizEngine) (r : Rand) :
    QuizEngine × List QuizEvent × Rand :=
  let current := getDifficulty e
  let idx := difficultyOrder.indexOf current
  if idx = 0 ∨ difficultyOrder.length ≤ idx then (e, [], r)
  else setDifficulty e r (some (difficultyOrder.getD (idx - 1) "")) false

/-! ### Properties of the deduplication helpers -/

theorem dedupFirst_subset [DecidableEq α] :
    ∀ (l seen : List α) (a : α), a ∈ dedupFirst seen l → a ∈ l := by
  intro l
  induction l with
  | nil => intro seen a h; simp [dedupFirst] at h
  | cons b rest ih =>
    intro seen a h
    rw [dedupFirst] at h
    split at h
    · exact List.mem_cons_of_mem b (ih _ _ h)
    · rcases List.mem_cons.mp h with h | h
      · exact h ▸ List.mem_cons_self a rest
      · exact List.mem_cons_of_mem b (ih _ _ h)

theorem mem_dedupFirst_not_seen [DecidableEq α] :
    ∀ (l seen : List α) (a : α), a ∈ dedupFirst seen l → a ∉ seen := by
  intro l
  induction l with
  | nil => intro seen a h; simp [dedupFirst] at h
  | cons b rest ih =>
    intro seen a h
    rw [dedupFirst] at h
    split at h
    · exact ih _ _ h
    · rcases List.mem_cons.mp h with h | h
      · subst h; assumption
      · intro hseen
        exact (ih _ _ h) (List.mem_cons_of_mem b hseen)

theorem dedupFirst_nodup [DecidableEq α] :
    ∀ (l seen : List α), (dedupFirst seen l).Nodup := by
  intro l
  induction l with
  | nil => intro seen; simp [dedupFirst]
  | cons b rest ih =>
    intro seen
    rw [dedupFirst]
    split
    · exact ih _
    · refine List.nodup_cons.mpr ⟨fun hmem => ?_, ih _⟩
      exact (mem_dedupFirst_not_seen rest (b :: seen) b hmem) (List.mem_cons_self b seen)

theorem uniqueLabelsAux_subset :
    ∀ (l seen : List String) (a : String), a ∈ uniqueLabelsAux seen l → a ∈ l := by
  intro l
  induction l with
  | nil => intro seen a h; simp [uniqueLabelsAux] at h
  | cons b rest ih =>
    intro seen a h
    rw [uniqueLabelsAux] at h
    split at h
    · exact List.mem_cons_of_mem b (ih _ _ h)
    · split at h
      · exact List.mem_cons_of_mem b (ih _ _ h)
      · rcases List.mem_cons.mp h with h | h
        · exact h ▸ List.mem_cons_self a rest
        · exact List.mem_cons_of_mem b (ih _ _ h)

theorem mem_uniqueLabelsAux :
    ∀ (l seen : List String) (a : String),
      a ∈ uniqueLabelsAux seen l → a ∉ seen ∧ a ≠ "" := by
  intro l
  induction l with
  | nil => intro seen a h; simp [uniqueLabelsAux] at h
  | cons b rest ih =>
    intro seen a h
    rw [uniqueLabelsAux] at h
    split at h
    · exact ih _ _ h
    · split at h
      · exact ih _ _ h
      · rcases List.mem_cons.mp h with h | h
        · subst h
          exact ⟨by assumption, by assumption⟩
        · obtain ⟨h1, h2⟩ := ih _ _ h
          exact ⟨fun hs => h1 (List.mem_cons_of_mem b hs), h2⟩

theorem uniqueLabelsAux_nodup :
    ∀ (l seen : List String), (uniqueLabelsAux seen l).Nodup := by
  intro l
  induction l with
  | nil => intro seen; simp [uniqueLabelsAux]
  | cons b rest ih =>
    intro seen
    rw [uniqueLabelsAux]
    split
    · exact ih _
    · split
      · exact ih _
      · refine List.nodup_cons.mpr ⟨fun hmem => ?_, ih _⟩
        exact (mem_uniqueLabelsAux rest (b :: seen) b hmem).1 (List.mem_cons_self b seen)

theorem uniqueLabels_nodup (l : List String) : (uniqueLabels l).Nodup :=
  uniqueLabelsAux_nodup l []

theorem uniqueLabels_cons {a : String} (l : List String) (h : a ≠ "") :
    uniqueLabels (a :: l) = a :: uniqueLabelsAux [a] l := by
  rw [uniqueLabels, uniqueLabelsAux]
  simp [h]

theorem uniqueByNameAux_subset :
    ∀ (l : List Country) (seen : List String) (c : Country),
      c ∈ uniqueByNameAux seen l → c ∈ l := by
  intro l
  induction l with
  | nil => intro seen c h; simp [uniqueByNameAux] at h
  | cons b rest ih =>
    intro seen c h
    rw [uniqueByNameAux] at h
    split at h
    · exact List.mem_cons_of_mem b (ih _ _ h)
    · split at h
      · exact List.mem_cons_of_mem b (ih _ _ h)
      · rcases List.mem_cons.mp h with h | h
        · exact h ▸ List.mem_cons_self c rest
        · exact List.mem_cons_of_mem b (ih _ _ h)

theorem mem_uniqueByNameAux :
    ∀ (l : List Country) (seen : List String) (c : Country),
      c ∈ uniqueByNameAux seen l → c.name ∉ seen ∧ c.name ≠ "" := by
  intro l
  induction l with
  | nil => intro seen c h; simp [uniqueByNameAux] at h
  | cons b rest ih =>
    intro seen c h
    rw [uniqueByNameAux] at h
    split at h
    · exact ih _ _ h
    · split at h
      · exact ih _ _ h
      · rcases List.mem_cons.mp h with h | h
        · subst h
          exact ⟨by assumption, by assumption⟩
        · obtain ⟨h1, h2⟩ := ih _ _ h
          exact ⟨fun hs => h1 (List.mem_cons_of_mem b.name hs), h2⟩

theorem uniqueByNameAux_names_nodup :
    ∀ (l : List Country) (seen : List String),
      ((uniqueByNameAux seen l).map Country.name).Nodup := by
  intro l
  induction l with
  | nil => intro seen; simp [uniqueByNameAux]
  | cons b rest ih =>
    intro seen
    rw [uniqueByNameAux]
    split
    · exact ih _
    · split
      · exact ih _
      · rw [List.map_cons]
        refine List.nodup_cons.mpr ⟨fun hmem => ?_, ih _⟩
        rcases List.mem_map.mp hmem with ⟨c, hc, hcname⟩
        exact (mem_uniqueByNameAux rest (b.name :: seen) c hc).1
          (hcname ▸ List.mem_cons_self b.name seen)

theorem uniqueByName_subset (l : List Country) (c : Country) :
    c ∈ uniqueByName l → c ∈ l :=
  uniqueByNameAux_subset l [] c

theorem uniqueByName_names_nodup (l : List Country) :
    ((uniqueByName l).map Country.name).Nodup :=
  uniqueByNameAux_names_nodup l []

theorem addValues_nodup :
    ∀ (items acc : List String), acc.Nodup → (addValues acc items).Nodup := by
  intro items
  induction items with
  | nil => intro acc h; exact h
  | cons b rest ih =>
    intro acc h
    rw [addValues]
    split
    · exact ih _ h
    · split
      · exact ih _ h
      · refine ih _ ?_
        simp only [List.nodup_append, List.nodup_cons]
        refine ⟨h, by simp, ?_⟩
        intro x hx hxb
        rw [List.mem_singleton] at hxb
        subst hxb
        exact absurd hx (by assumption)

theorem addValues_no_empty :
    ∀ (items acc : List String), "" ∉ acc → "" ∉ addValues acc items := by
  intro items
  induction items with
  | nil => intro acc h; exact h
  | cons b rest ih =>
    intro acc h
    rw [addValues]
    split
    · exact ih _ h
    · split
      · exact ih _ h
      · refine ih _ ?_
        intro hmem
        rcases List.mem_append.mp hmem with hm | hm
        · exact h hm
        · rw [List.mem_singleton] at hm
          exact (by assumption : ¬ b = "") hm.symm

theorem collect_foldl_inv (key : Country → List String) (excl : String) :
    ∀ (pool : List Country) (acc : List String), acc.Nodup → "" ∉ acc →
      (pool.foldl (fun acc c => if c.name = excl then acc else addValues acc (key c)) acc).Nodup ∧
      "" ∉ pool.foldl (fun acc c => if c.name = excl then acc else addValues acc (key c)) acc := by
  intro pool
  induction pool with
  | nil => intro acc h1 h2; exact ⟨h1, h2⟩
  | cons c rest ih =>
    intro acc h1 h2
    rw [List.foldl_cons]
    by_cases hc : c.name = excl
    · simpa [hc] using ih acc h1 h2
    · simpa [hc] using ih (addValues acc (key c)) (addValues_nodup _ _ h1) (addValues_no_empty _ _ h2)

theorem collectUniqueValues_nodup (key : Country → List String) (pool : List Country)
    (excl : String) : (collectUniqueValues key pool excl).Nodup :=
  (collect_foldl_inv key excl pool [] (by simp) (by simp)).1

theorem collectUniqueValues_no_empty (key : Country → List String) (pool : List Country)
    (excl : String) : "" ∉ collectUniqueValues key pool excl :=
  (collect_foldl_inv key excl pool [] (by simp) (by simp)).2

/-! ### Divergence of the population fallback loop (claim C2) -/

theorem synthCandidate_1000 (k : Nat) :
    synthCandidate 1000 (fallbackMultipliers.getD (k % fallbackMultipliers.length) (0, 1)) =
      100000 := by
  have h5 : k % fallbackMultipliers.length < 5 := Nat.mod_lt _ (by decide)
  generalize hi : k % fallbackMultipliers.length = i at h5 ⊢
  interval_cases i <;> decide

theorem popFallbackLoop_1000_stuck :
    ∀ (fuel k : Nat), popFallbackLoop 1000 fuel [100000] k = none := by
  intro fuel
  induction fuel with
  | zero => intro k; rfl
  | succ n ih =>
    intro k
    rw [popFallbackLoop]
    simp only [synthCandidate_1000]
    norm_num
    exact ih (k + 1)

/-- Claim C2 fails on the code: with correct population 1000 and an empty
candidate pool, every synthetic fallback candidate collapses to
max(100000, round(1000 * m)) = 100000, which is already a distractor after
the first fallback iteration, so the while loop of
generatePopulationOptions never terminates: no amount of fuel makes the
model return. -/
theorem generatePopulationOptions_diverges (fuel : Nat) (r : Rand) :
    generatePopulationOptions fuel r 1000 [] "X" = none := by
  have hempty : ∀ n, popFallbackLoop 1000 n [] 0 = none := by
    intro n
    cases n with
    | zero => rfl
    | succ m =>
      rw [popFallbackLoop]
      have h0 : synthCandidate 1000 (fallbackMultipliers.getD (0 % fallbackMultipliers.length) (0, 1)) = 100000 :=
        synthCandidate_1000 0
      simp only [h0]
      norm_num
      exact popFallbackLoop_1000_stuck m 1
  show (match popFallbackLoop 1000 fuel [] 0 with
        | none => none
        | some ds' => some ((1000 :: ds' : List Nat), r)) = none
  rw [hempty fuel]

/-! ### Properties of the label draw loop and the fallback fill (claim C4) -/

theorem labelDrawLoopN_inv :
    ∀ (n : Nat) (r : Rand) (cands ds : List String),
      (∀ x ∈ (labelDrawLoopN n r cands ds).1, x ∈ ds ∨ x ∈ cands) ∧
      (ds.Nodup → (labelDrawLoopN n r cands ds).1.Nodup) ∧
      (ds.length ≤ 3 → (labelDrawLoopN n r cands ds).1.length ≤ 3) := by
  intro n
  induction n with
  | zero =>
    intro r cands ds
    exact ⟨fun x hx => Or.inl hx, fun h => h, fun h => h⟩
  | succ m ih =>
    intro r cands ds
    match cands with
    | [] => exact ⟨fun x hx => Or.inl hx, fun h => h, fun h => h⟩
    | c0 :: rest =>
      simp only [labelDrawLoopN]
      have hi : (r.next (c0 :: rest).length).1 < (c0 :: rest).length :=
        Nat.mod_lt _ (Nat.succ_pos rest.length)
      have hcand : (c0 :: rest).getD ((r.next (c0 :: rest).length).1) "" ∈ c0 :: rest := by
        rw [List.getD_eq_getElem?_getD, List.getElem?_eq_getElem hi, Option.getD_some]
        exact List.getElem_mem hi
      have hsub : ∀ x ∈ (c0 :: rest).eraseIdx ((r.next (c0 :: rest).length).1),
          x ∈ c0 :: rest :=
        fun x hx => (List.eraseIdx_sublist (c0 :: rest) _).mem hx
      by_cases hlen : ds.length < 3
      · rw [if_pos hlen]
        by_cases hmem : (c0 :: rest).getD ((r.next (c0 :: rest).length).1) "" ∈ ds
        · rw [if_pos hmem]
          obtain ⟨h1, h2, h3⟩ := ih ((r.next (c0 :: rest).length).2)
            ((c0 :: rest).eraseIdx ((r.next (c0 :: rest).length).1)) ds
          exact ⟨fun x hx => (h1 x hx).imp id (fun h => hsub x h), h2, h3⟩
        · rw [if_neg hmem]
          obtain ⟨h1, h2, h3⟩ := ih ((r.next (c0 :: rest).length).2)
            ((c0 :: rest).eraseIdx ((r.next (c0 :: rest).length).1))
            (ds ++ [(c0 :: rest).getD ((r.next (c0 :: rest).length).1) ""])
          refine ⟨fun x hx => ?_, fun hnd => ?_, fun hl => ?_⟩
          · rcases h1 x hx with h | h
            · rcases List.mem_append.mp h with h | h
              · exact Or.inl h
              · exact Or.inr (List.mem_singleton.mp h ▸ hcand)
            · exact Or.inr (hsub x h)
          · refine h2 ?_
            simp only [List.nodup_append, List.nodup_cons]
            exact ⟨hnd, by simp, fun x hx hxs => hmem (List.mem_singleton.mp hxs ▸ hx)⟩
          · refine h3 ?_
            rw [List.length_append, List.length_singleton]
            omega
      · rw [if_neg hlen]
        exact ⟨fun x hx => Or.inl hx, fun h => h, fun h => h⟩

theorem labelDrawLoop_inv (r : Rand) (cands : List String) :
    (∀ x ∈ (labelDrawLoop r cands []).1, x ∈ cands) ∧
    (labelDrawLoop r cands []).1.Nodup ∧
    (labelDrawLoop r cands []).1.length ≤ 3 := by
  obtain ⟨h1, h2, h3⟩ := labelDrawLoopN_inv cands.length r cands []
  exact ⟨fun x hx => ((h1 x hx).resolve_left (by simp)), h2 (by simp), h3 (by simp)⟩

theorem fillFromFallback_mem :
    ∀ (fb ds : List String) (correct x : String),
      x ∈ fillFromFallback correct ds fb → x ∈ ds ∨ x ∈ fb := by
  intro fb
  induction fb with
  | nil => intro ds correct x h; exact Or.inl h
  | cons f rest ih =>
    intro ds correct x h
    rw [fillFromFallback] at h
    split at h
    · exact Or.inl h
    · split at h
      · rcases ih _ _ _ h with h | h
        · rcases List.mem_append.mp h with h | h
          · exact Or.inl h
          · exact Or.inr (List.mem_cons.mpr (Or.inl (List.mem_singleton.mp h)))
        · exact Or.inr (List.mem_cons_of_mem f h)
      · exact (ih _ _ _ h).imp id (List.mem_cons_of_mem f)

theorem fillFromFallback_nodup :
    ∀ (fb ds : List String) (correct : String), ds.Nodup →
      (fillFromFallback correct ds fb).Nodup := by
  intro fb
  induction fb with
  | nil => intro ds correct h; exact h
  | cons f rest ih =>
    intro ds correct h
    rw [fillFromFallback]
    split
    · exact h
    · split
      · refine ih _ _ ?_
        simp only [List.nodup_append, List.nodup_cons]
        rename_i hcond
        exact ⟨h, by simp, fun x hx hxs => hcond.2 (List.mem_singleton.mp hxs ▸ hx)⟩
      · exact ih _ _ h

theorem fillFromFallback_not_correct :
    ∀ (fb ds : List String) (correct : String), correct ∉ ds →
      correct ∉ fillFromFallback correct ds fb := by
  intro fb
  induction fb with
  | nil => intro ds correct h; exact h
  | cons f rest ih =>
    intro ds correct h
    rw [fillFromFallback]
    split
    · exact h
    · split
      · refine ih _ _ ?_
        intro hmem
        rcases List.mem_append.mp hmem with hm | hm
        · exact h hm
        · rename_i hcond
          exact hcond.1 (List.mem_singleton.mp hm).symm
      · exact ih _ _ h

theorem fillFromFallback_length :
    ∀ (fb ds : List String) (correct : String), fb.Nodup → ds.Nodup → ds.length ≤ 3 →
      3 ≤ ds.length + (fb.filter (fun f => decide (f ≠ correct ∧ f ∉ ds))).length →
      (fillFromFallback correct ds fb).length = 3 := by
  intro fb
  induction fb with
  | nil =>
    intro ds correct _ _ h3 havail
    simp only [List.filter_nil, List.length_nil, Nat.add_zero] at havail
    rw [fillFromFallback]
    omega
  | cons f rest ih =>
    intro ds correct hfb hds h3 havail
    have hfrest : f ∉ rest := (List.nodup_cons.mp hfb).1
    have hrest : rest.Nodup := (List.nodup_cons.mp hfb).2
    rw [List.filter_cons] at havail
    rw [fillFromFallback]
    split
    · rename_i hge
      omega
    · rename_i hlt
      by_cases hcond : f ≠ correct ∧ f ∉ ds
      · rw [if_pos hcond]
        have hdec : (decide (f ≠ correct ∧ f ∉ ds)) = true := by
          simpa using hcond
        rw [if_pos hdec] at havail
        have hsame : rest.filter (fun g => decide (g ≠ correct ∧ g ∉ ds ++ [f])) =
            rest.filter (fun g => decide (g ≠ correct ∧ g ∉ ds)) := by
          refine List.filter_congr ?_
          intro g hg
          have hgf : g ≠ f := fun hgf => hfrest (hgf ▸ hg)
          simp [List.mem_append, hgf]
        refine ih (ds ++ [f]) correct hrest ?_ ?_ ?_
        · simp only [List.nodup_append, List.nodup_cons]
          exact ⟨hds, by simp, fun x hx hxs => hcond.2 (List.mem_singleton.mp hxs ▸ hx)⟩
        · rw [List.length_append, List.length_singleton]; omega
        · rw [hsame, List.length_append, List.length_singleton]
          simp only [List.length_cons] at havail
          omega
      · rw [if_neg hcond]
        refine ih ds correct hrest hds h3 ?_
        have hdec : ¬ ((decide (f ≠ correct ∧ f ∉ ds)) = true) := by
          simpa using hcond
        rw [if_neg hdec] at havail
        exact havail

theorem filter_avail_length (fb ds : List String) (correct : String) (hfb : fb.Nodup) :
    fb.length ≤ (fb.filter (fun f => decide (f ≠ correct ∧ f ∉ ds))).length + 1 + ds.length := by
  have hperm := List.filter_append_perm (fun f => decide (f ≠ correct ∧ f ∉ ds)) fb
  have hlen := hperm.length_eq
  rw [List.length_append] at hlen
  have hout : (fb.filter (fun f => !decide (f ≠ correct ∧ f ∉ ds))).length ≤ 1 + ds.length := by
    have hnd : (fb.filter (fun f => !decide (f ≠ correct ∧ f ∉ ds))).Nodup :=
      hfb.filter _
    have hsubset : fb.filter (fun f => !decide (f ≠ correct ∧ f ∉ ds)) ⊆ correct :: ds := by
      intro x hx
      have hxmem := List.of_mem_filter hx
      simp only [Bool.not_eq_true', decide_eq_false_iff_not, not_and, not_not] at hxmem
      by_cases hxc : x = correct
      · exact hxc ▸ List.mem_cons_self correct ds
      · exact List.mem_cons_of_mem correct (hxmem hxc)
    have := (hnd.subperm hsubset).length_le
    simpa [Nat.add_comm] using this
  omega

/-- Shared shape of generateCurrencyOptions and generateLanguageOptions:
the returned list of the generator built from the given candidate list and
fallback list has exactly four pairwise-distinct non-empty labels and
starts with the correct one. -/
theorem optionsListSpec (correct : String) (cands fb : List String) (r : Rand)
    (hcands : ∀ x ∈ cands, x ≠ "" ∧ x ≠ correct)
    (hfb : fb.Nodup) (hfb4 : 4 ≤ fb.length) (hfbne : ∀ x ∈ fb, x ≠ "")
    (hcne : correct ≠ "") :
    ((correct :: fillFromFallback correct (labelDrawLoop r cands []).1 fb).take 4).length = 4 ∧
    ((correct :: fillFromFallback correct (labelDrawLoop r cands []).1 fb).take 4).Nodup ∧
    ((correct :: fillFromFallback correct (labelDrawLoop r cands []).1 fb).take 4).head? =
      some correct ∧
    ∀ x ∈ (correct :: fillFromFallback correct (labelDrawLoop r cands []).1 fb).take 4,
      x ≠ "" := by
  obtain ⟨hmem, hnd, hlen⟩ := labelDrawLoop_inv r cands
  set ds := (labelDrawLoop r cands []).1 with hds
  have hcor : correct ∉ ds := fun h => (hcands _ (hmem _ h)).2 rfl
  have havail := filter_avail_length fb ds correct hfb
  have hfill : (fillFromFallback correct ds fb).length = 3 :=
    fillFromFallback_length fb ds correct hfb hnd hlen (by omega)
  have hfillnd : (fillFromFallback correct ds fb).Nodup := fillFromFallback_nodup fb ds correct hnd
  have hfillcor : correct ∉ fillFromFallback correct ds fb :=
    fillFromFallback_not_correct fb ds correct hcor
  have hfillne : ∀ x ∈ fillFromFallback correct ds fb, x ≠ "" := by
    intro x hx
    rcases fillFromFallback_mem fb ds correct x hx with h | h
    · exact (hcands _ (hmem _ h)).1
    · exact hfbne _ h
  have hconslen : (correct :: fillFromFallback correct ds fb).length = 4 := by
    rw [List.length_cons, hfill]
  have htake : (correct :: fillFromFallback correct ds fb).take 4 =
      correct :: fillFromFallback correct ds fb := by
    apply List.take_of_length_le
    omega
  rw [htake]
  refine ⟨hconslen, List.nodup_cons.mpr ⟨hfillcor, hfillnd⟩, rfl, ?_⟩
  intro x hx
  rcases List.mem_cons.mp hx with h | h
  · exact h ▸ hcne
  · exact hfillne x h

/-- Claim C4: for every correct label and every pool (the empty pool
included), generateCurrencyOptions and generateLanguageOptions return
exactly four pairwise-distinct non-empty labels whose first element is the
correct one, topping up from the hard coded fallback lists when the pool
yields fewer than three distractors. The hypothesis that the correct label
is non-empty is implied at every call site by hasDataForType. -/
theorem generateOptions_four (r : Rand) (correct : String) (pool : List Country)
    (countryName : String) (hcne : correct ≠ "") :
    ((generateCurrencyOptions r correct pool countryName).1.length = 4 ∧
      (generateCurrencyOptions r correct pool countryName).1.Nodup ∧
      (generateCurrencyOptions r correct pool countryName).1.head? = some correct ∧
      ∀ x ∈ (generateCurrencyOptions r correct pool countryName).1, x ≠ "") ∧
    ((generateLanguageOptions r correct pool countryName).1.length = 4 ∧
      (generateLanguageOptions r correct pool countryName).1.Nodup ∧
      (generateLanguageOptions r correct pool countryName).1.head? = some correct ∧
      ∀ x ∈ (generateLanguageOptions r correct pool countryName).1, x ≠ "") := by
  constructor
  · have hcands : ∀ x ∈ (collectUniqueValues Country.currencies pool countryName).filter
        (· != correct), x ≠ "" ∧ x ≠ correct := by
      intro x hx
      have h1 := List.of_mem_filter hx
      have h2 := List.mem_of_mem_filter hx
      refine ⟨fun he => collectUniqueValues_no_empty Country.currencies pool countryName
        (he ▸ h2), by simpa using h1⟩
    exact optionsListSpec correct _ fallbackCurrencies r hcands (by decide) (by decide)
      (by decide) hcne
  · have hcands : ∀ x ∈ (collectUniqueValues Country.languages pool countryName).filter
        (· != correct), x ≠ "" ∧ x ≠ correct := by
      intro x hx
      have h1 := List.of_mem_filter hx
      have h2 := List.mem_of_mem_filter hx
      refine ⟨fun he => collectUniqueValues_no_empty Country.languages pool countryName
        (he ▸ h2), by simpa using h1⟩
    exact optionsListSpec correct _ fallbackLanguages r hcands (by decide) (by decide)
      (by decide) hcne

/-! ### Well-formedness of built questions (claim C1) -/

/-- Answer value the claim designates as correct for a question type: the
population, the first currency, or the first language of the country. -/
def trueAnswer (qtype : String) (c : Country) : JSValue :=
  if qtype = "population" then .num c.population
  else if qtype = "currency" then .str (c.currencies.headD "")
  else .str (c.languages.headD "")

/-- Well-formedness of a generated question with respect to the correct
value v: exactly four pairwise-distinct option values, exactly one of them
equal to v, and correctIndex pointing at that option. -/
def QuestionOk (v : JSValue) (q : Question) : Prop :=
  q.options.length = 4 ∧
  (q.options.map AnswerOption.value).Nodup ∧
  (q.options.map AnswerOption.value).count v = 1 ∧
  q.correctIndex < 4 ∧
  ∃ o, q.options[q.correctIndex]? = some o ∧ o.value = v

/-- Common tail of the three question builders: shuffling four option
objects with pairwise-distinct values containing the correct one yields a
list in which findIdx locates the unique correct option. -/
theorem assembleSpec (r : Rand) (objs : List AnswerOption) (v : JSValue)
    (hnd : (objs.map AnswerOption.value).Nodup)
    (hlen : objs.length = 4)
    (hmem : v ∈ objs.map AnswerOption.value) :
    (shuffleArray r objs).1.findIdx (fun o => o.value == v) ≠ (shuffleArray r objs).1.length ∧
    (shuffleArray r objs).1.length = 4 ∧
    ((shuffleArray r objs).1.map AnswerOption.value).Nodup ∧
    ((shuffleArray r objs).1.map AnswerOption.value).count v = 1 ∧
    (shuffleArray r objs).1.findIdx (fun o => o.value == v) < 4 ∧
    ∃ o, (shuffleArray r objs).1[(shuffleArray r objs).1.findIdx (fun o => o.value == v)]? =
      some o ∧ o.value = v := by
  have hperm : (shuffleArray r objs).1.Perm objs := shuffleArray_perm r objs
  have hpermmap : ((shuffleArray r objs).1.map AnswerOption.value).Perm
      (objs.map AnswerOption.value) := hperm.map _
  have hlen' : (shuffleArray r objs).1.length = 4 := hperm.length_eq.trans hlen
  have hnd' : ((shuffleArray r objs).1.map AnswerOption.value).Nodup :=
    hpermmap.nodup_iff.mpr hnd
  have hcnt : ((shuffleArray r objs).1.map AnswerOption.value).count v = 1 := by
    rw [hpermmap.count_eq]
    exact List.count_eq_one_of_mem hnd hmem
  have hmem' : v ∈ (shuffleArray r objs).1.map AnswerOption.value := hpermmap.mem_iff.mpr hmem
  obtain ⟨o, ho, hov⟩ := List.mem_map.mp hmem'
  have hex : ∃ x ∈ (shuffleArray r objs).1, (fun o => o.value == v) x = true :=
    ⟨o, ho, by simp [hov]⟩
  have hci : (shuffleArray r objs).1.findIdx (fun o => o.value == v) <
      (shuffleArray r objs).1.length :=
    List.findIdx_lt_length_of_exists hex
  refine ⟨by omega, hlen', hnd', hcnt, by omega, ?_⟩
  refine ⟨(shuffleArray r objs).1.get
    ⟨(shuffleArray r objs).1.findIdx (fun o => o.value == v), hci⟩,
    List.getElem?_eq_getElem hci, ?_⟩
  have hget := @List.findIdx_getElem _ _ _ hci
  simpa using hget

theorem buildPopulationQuestion_ok {fuel : Nat} {r : Rand} {c : Country}
    {pool : List Country} {q : Question} {r₂ : Rand}
    (h : buildPopulationQuestion fuel r c pool = some (some q, r₂)) :
    q.country = c.name ∧ QuestionOk (JSValue.num c.population) q := by
  rw [buildPopulationQuestion] at h
  split at h
  · simp at h
  · dsimp only at h
    split at h
    · exact absurd h (by simp)
    · rename_i rawpair raw r' heq
      split at h
      · simp at h
      · rename_i hguard
        rw [not_or, not_lt, not_not] at hguard
        obtain ⟨hmem4, hlen4⟩ := hguard
        have hlen' : ((dedupFirst [] raw).take 4).length = 4 := by
          have := List.length_take 4 (dedupFirst [] raw)
          omega
        have hndtake : ((dedupFirst [] raw).take 4).Nodup :=
          (List.take_sublist 4 _).nodup (dedupFirst_nodup raw [])
        have hobjnd : ((((dedupFirst [] raw).take 4).map
            (fun v => { label := formatPopulation v, value := JSValue.num v : AnswerOption })).map
              AnswerOption.value).Nodup := by
          rw [List.map_map]
          exact hndtake.map (fun a b hab => by simpa using hab)
        have hobjlen : (((dedupFirst [] raw).take 4).map
            (fun v => { label := formatPopulation v, value := JSValue.num v : AnswerOption })).length = 4 := by
          rw [List.length_map]; exact hlen'
        have hobjmem : JSValue.num c.population ∈ (((dedupFirst [] raw).take 4).map
            (fun v => { label := formatPopulation v, value := JSValue.num v : AnswerOption })).map
              AnswerOption.value := by
          rw [List.map_map]
          exact List.mem_map.mpr ⟨c.population, hmem4, rfl⟩
        obtain ⟨hne, hl4, hnd, hcnt, hlt, hexists⟩ :=
          assembleSpec r' _ (JSValue.num c.population) hobjnd hobjlen hobjmem
        split at h
        · simp at h
        · simp only [Option.some.injEq, Prod.mk.injEq] at h
          obtain ⟨hq, _⟩ := h
          subst hq
          exact ⟨rfl, hl4, hnd, hcnt, hlt, hexists⟩

theorem generateCurrencyOptions_head (r : Rand) (correct : String) (pool : List Country)
    (countryName : String) :
    ∃ tl, (generateCurrencyOptions r correct pool countryName).1 = correct :: tl :=
  ⟨_, rfl⟩

theorem generateLanguageOptions_head (r : Rand) (correct : String) (pool : List Country)
    (countryName : String) :
    ∃ tl, (generateLanguageOptions r correct pool countryName).1 = correct :: tl :=
  ⟨_, rfl⟩

theorem buildCurrencyQuestion_ok {r : Rand} {c : Country} {pool : List Country}
    {q : Question} {r₂ : Rand}
    (h : buildCurrencyQuestion r c pool = (some q, r₂)) :
    q.country = c.name ∧ QuestionOk (JSValue.str (c.currencies.headD "")) q := by
  rw [buildCurrencyQuestion] at h
  split at h
  · simp at h
  · rename_i hdata
    dsimp only at h
    have hdata : hasDataForType c "currency" = true := by simpa using hdata
    have hcne : c.currencies.headD "" ≠ "" := by
      simp [hasDataForType, List.headD_eq_head?_getD] at hdata
      simpa [List.headD_eq_head?_getD] using hdata.2
    obtain ⟨tl, htl⟩ := generateCurrencyOptions_head r (c.currencies.headD "") pool c.name
    split at h
    · simp at h
    · rename_i hguard
      rw [not_or, not_lt, not_not] at hguard
      obtain ⟨hmemU, hlenU⟩ := hguard
      have hndU : (uniqueLabels (generateCurrencyOptions r (c.currencies.headD "") pool c.name).1).Nodup :=
        uniqueLabels_nodup _
      have hndtake := (List.take_sublist 4 _).nodup hndU
      have hlen4 : ((uniqueLabels (generateCurrencyOptions r (c.currencies.headD "") pool c.name).1).take 4).length = 4 := by
        have := List.length_take 4 (uniqueLabels (generateCurrencyOptions r (c.currencies.headD "") pool c.name).1)
        omega
      have hmemtake : c.currencies.headD "" ∈
          (uniqueLabels (generateCurrencyOptions r (c.currencies.headD "") pool c.name).1).take 4 := by
        rw [htl, uniqueLabels_cons tl hcne, List.take_succ_cons]
        exact List.mem_cons_self _ _
      have hobjnd : ((((uniqueLabels (generateCurrencyOptions r (c.currencies.headD "") pool c.name).1).take 4).map
          (fun l => { label := l, value := JSValue.str l : AnswerOption })).map
            AnswerOption.value).Nodup := by
        rw [List.map_map]
        exact hndtake.map (fun a b hab => by simpa using hab)
      have hobjlen : (((uniqueLabels (generateCurrencyOptions r (c.currencies.headD "") pool c.name).1).take 4).map
          (fun l => { label := l, value := JSValue.str l : AnswerOption })).length = 4 := by
        rw [List.length_map]; exact hlen4
      have hobjmem : JSValue.str (c.currencies.headD "") ∈
          (((uniqueLabels (generateCurrencyOptions r (c.currencies.headD "") pool c.name).1).take 4).map
            (fun l => { label := l, value := JSValue.str l : AnswerOption })).map
              AnswerOption.value := by
        rw [List.map_map]
        exact List.mem_map.mpr ⟨c.currencies.headD "", hmemtake, rfl⟩
      obtain ⟨hne, hl4, hnd, hcnt, hlt, hexists⟩ :=
        assembleSpec (generateCurrencyOptions r (c.currencies.headD "") pool c.name).2 _
          (JSValue.str (c.currencies.headD "")) hobjnd hobjlen hobjmem
      split at h
      · simp at h
      · simp only [Prod.mk.injEq, Option.some.injEq] at h
        obtain ⟨hq, _⟩ := h
        subst hq
        exact ⟨rfl, hl4, hnd, hcnt, hlt, hexists⟩

theorem buildLanguagesQuestion_ok {r : Rand} {c : Country} {pool : List Country}
    {q : Question} {r₂ : Rand}
    (h : buildLanguagesQuestion r c pool = (some q, r₂)) :
    q.country = c.name ∧ QuestionOk (JSValue.str (c.languages.headD "")) q := by
  rw [buildLanguagesQuestion] at h
  split at h
  · simp at h
  · rename_i hdata
    dsimp only at h
    have hdata : hasDataForType c "languages" = true := by simpa using hdata
    have hcne : c.languages.headD "" ≠ "" := by
      simp [hasDataForType, List.headD_eq_head?_getD] at hdata
      simpa [List.headD_eq_head?_getD] using hdata.2
    obtain ⟨tl, htl⟩ := generateLanguageOptions_head r (c.languages.headD "") pool c.name
    split at h
    · simp at h
    · rename_i hguard
      rw [not_or, not_lt, not_not] at hguard
      obtain ⟨hmemU, hlenU⟩ := hguard
      have hndU : (uniqueLabels (generateLanguageOptions r (c.languages.headD "") pool c.name).1).Nodup :=
        uniqueLabels_nodup _
      have hndtake := (List.take_sublist 4 _).nodup hndU
      have hlen4 : ((uniqueLabels (generateLanguageOptions r (c.languages.headD "") pool c.name).1).take 4).length = 4 := by
        have := List.length_take 4 (uniqueLabels (generateLanguageOptions r (c.languages.headD "") pool c.name).1)
        omega
      have hmemtake : c.languages.headD "" ∈
          (uniqueLabels (generateLanguageOptions r (c.languages.headD "") pool c.name).1).take 4 := by
        rw [htl, uniqueLabels_cons tl hcne, List.take_succ_cons]
        exact List.mem_cons_self _ _
      have hobjnd : ((((uniqueLabels (generateLanguageOptions r (c.languages.headD "") pool c.name).1).take 4).map
          (fun l => { label := l, value := JSValue.str l : AnswerOption })).map
            AnswerOption.value).Nodup := by
        rw [List.map_map]
        exact hndtake.map (fun a b hab => by simpa using hab)
      have hobjlen : (((uniqueLabels (generateLanguageOptions r (c.languages.headD "") pool c.name).1).take 4).map
          (fun l => { label := l, value := JSValue.str l : AnswerOption })).length = 4 := by
        rw [List.length_map]; exact hlen4
      have hobjmem : JSValue.str (c.languages.headD "") ∈
          (((uniqueLabels (generateLanguageOptions r (c.languages.headD "") pool c.name).1).take 4).map
            (fun l => { label := l, value := JSValue.str l : AnswerOption })).map
              AnswerOption.value := by
        rw [List.map_map]
        exact List.mem_map.mpr ⟨c.languages.headD "", hmemtake, rfl⟩
      obtain ⟨hne, hl4, hnd, hcnt, hlt, hexists⟩ :=
        assembleSpec (generateLanguageOptions r (c.languages.headD "") pool c.name).2 _
          (JSValue.str (c.languages.headD "")) hobjnd hobjlen hobjmem
      split at h
      · simp at h
      · simp only [Prod.mk.injEq, Option.some.injEq] at h
        obtain ⟨hq, _⟩ := h
        subst hq
        exact ⟨rfl, hl4, hnd, hcnt, hlt, hexists⟩

theorem buildQuestionForType_ok {fuel : Nat} {qtype : String} {c : Country}
    {pool : List Country} {r : Rand} {q : Question} {r₂ : Rand}
    (h : buildQuestionForType fuel qtype c pool r = some (some q, r₂)) :
    q.country = c.name ∧ QuestionOk (trueAnswer qtype c) q := by
  rw [buildQuestionForType] at h
  split at h
  · rename_i hp
    subst hp
    simpa [trueAnswer] using buildPopulationQuestion_ok h
  · split at h
    · rename_i hp hc
      subst hc
      simpa [trueAnswer] using buildCurrencyQuestion_ok (Option.some.inj h)
    · split at h
      · rename_i hp hc hl
        subst hl
        simpa [trueAnswer, hp, hc] using buildLanguagesQuestion_ok (Option.some.inj h)
      · simp at h

/-- Provenance and well-formedness of a question: it was built for some
country of the list S. -/
def QuestionFrom (S : List Country) (qtype : String) (q : Question) : Prop :=
  ∃ c, c ∈ S ∧ q.country = c.name ∧ QuestionOk (trueAnswer qtype c) q

theorem qLoop1_ok (fuel : Nat) (qtype : String) (optionPool : List Country) (desired : Nat)
    (S : List Country) :
    ∀ (lst : List Country) (tried : List String) (qs : List Question) (r : Rand)
      (tried' : List String) (qs' : List Question) (r' : Rand),
      (∀ c ∈ lst, c ∈ S) → (∀ q ∈ qs, QuestionFrom S qtype q) →
      qLoop1 fuel qtype optionPool desired lst tried qs r = some (tried', qs', r') →
      ∀ q ∈ qs', QuestionFrom S qtype q := by
  intro lst
  induction lst with
  | nil =>
    intro tried qs r tried' qs' r' hlst hacc h
    rw [qLoop1] at h
    simp only [Option.some.injEq, Prod.mk.injEq] at h
    obtain ⟨-, h2, -⟩ := h
    exact h2 ▸ hacc
  | cons c rest ih =>
    intro tried qs r tried' qs' r' hlst hacc h
    rw [qLoop1] at h
    split at h
    · simp only [Option.some.injEq, Prod.mk.injEq] at h
      obtain ⟨-, h2, -⟩ := h
      exact h2 ▸ hacc
    · split at h
      · exact ih _ _ _ _ _ _ (fun x hx => hlst x (List.mem_cons_of_mem c hx)) hacc h
      · split at h
        · exact absurd h (by simp)
        · exact ih _ _ _ _ _ _ (fun x hx => hlst x (List.mem_cons_of_mem c hx)) hacc h
        · rename_i q0 r'' hbuild
          refine ih _ _ _ _ _ _ (fun x hx => hlst x (List.mem_cons_of_mem c hx)) ?_ h
          intro q hq
          rcases List.mem_append.mp hq with hq | hq
          · exact hacc q hq
          · rw [List.mem_singleton] at hq
            subst hq
            obtain ⟨hco, hok⟩ := buildQuestionForType_ok hbuild
            exact ⟨c, hlst c (List.mem_cons_self c rest), hco, hok⟩

theorem qLoop2_ok (fuel : Nat) (qtype : String) (optionPool : List Country) (desired : Nat)
    (S : List Country) :
    ∀ (lst : List Country) (tried : List String) (qs : List Question) (r : Rand)
      (tried' : List String) (qs' : List Question) (r' : Rand),
      (∀ c ∈ lst, c ∈ S) → (∀ q ∈ qs, QuestionFrom S qtype q) →
      qLoop2 fuel qtype optionPool desired lst tried qs r = some (tried', qs', r') →
      ∀ q ∈ qs', QuestionFrom S qtype q := by
  intro lst
  induction lst with
  | nil =>
    intro tried qs r tried' qs' r' hlst hacc h
    rw [qLoop2] at h
    simp only [Option.some.injEq, Prod.mk.injEq] at h
    obtain ⟨-, h2, -⟩ := h
    exact h2 ▸ hacc
  | cons c rest ih =>
    intro tried qs r tried' qs' r' hlst hacc h
    rw [qLoop2] at h
    split at h
    · simp only [Option.some.injEq, Prod.mk.injEq] at h
      obtain ⟨-, h2, -⟩ := h
      exact h2 ▸ hacc
    · split at h
      · exact ih _ _ _ _ _ _ (fun x hx => hlst x (List.mem_cons_of_mem c hx)) hacc h
      · split at h
        · exact absurd h (by simp)
        · exact ih _ _ _ _ _ _ (fun x hx => hlst x (List.mem_cons_of_mem c hx)) hacc h
        · rename_i q0 r'' hbuild
          refine ih _ _ _ _ _ _ (fun x hx => hlst x (List.mem_cons_of_mem c hx)) ?_ h
          intro q hq
          rcases List.mem_append.mp hq with hq | hq
          · exact hacc q hq
          · rw [List.mem_singleton] at hq
            subst hq
            obtain ⟨hco, hok⟩ := buildQuestionForType_ok hbuild
            exact ⟨c, hlst c (List.mem_cons_self c rest), hco, hok⟩

theorem qLoop1_nodup (fuel : Nat) (qtype : String) (optionPool : List Country) (desired : Nat) :
    ∀ (lst : List Country) (tried : List String) (qs : List Question) (r : Rand)
      (tried' : List String) (qs' : List Question) (r' : Rand),
      (qs.map Question.country).Nodup → (∀ q ∈ qs, q.country ∈ tried) →
      qLoop1 fuel qtype optionPool desired lst tried qs r = some (tried', qs', r') →
      (qs'.map Question.country).Nodup ∧ (∀ q ∈ qs', q.country ∈ tried') := by
  intro lst
  induction lst with
  | nil =>
    intro tried qs r tried' qs' r' hnd hin h
    rw [qLoop1] at h
    simp only [Option.some.injEq, Prod.mk.injEq] at h
    obtain ⟨h1, h2, -⟩ := h
    exact h1 ▸ h2 ▸ ⟨hnd, hin⟩
  | cons c rest ih =>
    intro tried qs r tried' qs' r' hnd hin h
    rw [qLoop1] at h
    split at h
    · simp only [Option.some.injEq, Prod.mk.injEq] at h
      obtain ⟨h1, h2, -⟩ := h
      exact h1 ▸ h2 ▸ ⟨hnd, hin⟩
    · split at h
      · exact ih _ _ _ _ _ _ hnd hin h
      · rename_i hfresh
        split at h
        · exact absurd h (by simp)
        · refine ih _ _ _ _ _ _ hnd ?_ h
          intro q hq
          exact List.mem_append.mpr (Or.inl (hin q hq))
        · rename_i q0 r'' hbuild
          obtain ⟨hco, -⟩ := buildQuestionForType_ok hbuild
          refine ih _ _ _ _ _ _ ?_ ?_ h
          · rw [List.map_append, List.map_singleton]
            simp only [List.nodup_append, List.nodup_cons]
            refine ⟨hnd, by simp, ?_⟩
            intro x hx hxs
            rw [List.mem_singleton] at hxs
            subst hxs
            rcases List.mem_map.mp hx with ⟨q1, hq1, hq1c⟩
            exact hfresh (hco ▸ hq1c ▸ hin q1 hq1)
          · intro q hq
            rcases List.mem_append.mp hq with hq | hq
            · exact List.mem_append.mpr (Or.inl (hin q hq))
            · rw [List.mem_singleton] at hq
              subst hq
              exact List.mem_append.mpr (Or.inr (by simp [hco]))

theorem qLoop2_nodup (fuel : Nat) (qtype : String) (optionPool : List Country) (desired : Nat) :
    ∀ (lst : List Country) (tried : List String) (qs : List Question) (r : Rand)
      (tried' : List String) (qs' : List Question) (r' : Rand),
      (qs.map Question.country).Nodup → (∀ q ∈ qs, q.country ∈ tried) →
      (lst.map Country.name).Nodup → (∀ c ∈ lst, c.name ∉ tried) →
      qLoop2 fuel qtype optionPool desired lst tried qs r = some (tried', qs', r') →
      (qs'.map Question.country).Nodup := by
  intro lst
  induction lst with
  | nil =>
    intro tried qs r tried' qs' r' hnd hin hlnd hlfresh h
    rw [qLoop2] at h
    simp only [Option.some.injEq, Prod.mk.injEq] at h
    obtain ⟨-, h2, -⟩ := h
    exact h2 ▸ hnd
  | cons c rest ih =>
    intro tried qs r tried' qs' r' hnd hin hlnd hlfresh h
    have hlndr : (rest.map Country.name).Nodup := (List.nodup_cons.mp (by simpa using hlnd)).2
    have hlcr : c.name ∉ rest.map Country.name := (List.nodup_cons.mp (by simpa using hlnd)).1
    rw [qLoop2] at h
    split at h
    · simp only [Option.some.injEq, Prod.mk.injEq] at h
      obtain ⟨-, h2, -⟩ := h
      exact h2 ▸ hnd
    · split at h
      · exact ih _ _ _ _ _ _ hnd hin hlndr
          (fun x hx => hlfresh x (List.mem_cons_of_mem c hx)) h
      · split at h
        · exact absurd h (by simp)
        · exact ih _ _ _ _ _ _ hnd hin hlndr
            (fun x hx => hlfresh x (List.mem_cons_of_mem c hx)) h
        · rename_i q0 r'' hbuild
          obtain ⟨hco, -⟩ := buildQuestionForType_ok hbuild
          have hcfresh : c.name ∉ tried := hlfresh c (List.mem_cons_self c rest)
          refine ih _ _ _ _ _ _ ?_ ?_ hlndr ?_ h
          · rw [List.map_append, List.map_singleton]
            simp only [List.nodup_append, List.nodup_cons]
            refine ⟨hnd, by simp, ?_⟩
            intro x hx hxs
            rw [List.mem_singleton] at hxs
            subst hxs
            rcases List.mem_map.mp hx with ⟨q1, hq1, hq1c⟩
            exact hcfresh (hco ▸ hq1c ▸ hin q1 hq1)
          · intro q hq
            rcases List.mem_append.mp hq with hq | hq
            · exact List.mem_append.mpr (Or.inl (hin q hq))
            · rw [List.mem_singleton] at hq
              subst hq
              exact List.mem_append.mpr (Or.inr (by simp [hco]))
          · intro x hx hxmem
            rcases List.mem_append.mp hxmem with hm | hm
            · exact hlfresh x (List.mem_cons_of_mem c hx) hm
            · rw [List.mem_singleton] at hm
              exact hlcr (hm ▸ List.mem_map_of_mem Country.name hx)

theorem getCountriesForType_mem (e : QuizEngine) (r : Rand) (qtype : String) (n : Nat) :
    ∀ c ∈ (getCountriesForType e r qtype n).1, c ∈ e.countryPool ∨ c ∈ e.countries := by
  intro c hc
  rw [getCountriesForType] at hc
  dsimp only at hc
  split at hc
  · split at hc
    · have := uniqueByName_subset _ c hc
      dsimp only at this
      exact Or.inl (List.mem_of_mem_filter this)
    · have := uniqueByName_subset _ c hc
      dsimp only at this
      rcases List.mem_append.mp this with hm | hm
      · exact Or.inl (List.mem_of_mem_filter hm)
      · exact Or.inr (List.mem_of_mem_filter hm)
  · split at hc
    · have := uniqueByName_subset _ c hc
      dsimp only at this
      have hm := List.mem_of_mem_filter this
      have hm2 := List.take_subset _ _ hm
      exact Or.inr ((shuffleArray_perm r e.countries).mem_iff.mp hm2)
    · have := uniqueByName_subset _ c hc
      dsimp only at this
      rcases List.mem_append.mp this with hm | hm
      · have hm1 := List.mem_of_mem_filter hm
        have hm2 := List.take_subset _ _ hm1
        exact Or.inr ((shuffleArray_perm r e.countries).mem_iff.mp hm2)
      · exact Or.inr (List.mem_of_mem_filter hm)

/-- Claim C1: every question in a set produced by generateQuestionSet for
the types population, currency and languages is about a country drawn from
the engine state, offers exactly four pairwise-distinct option values of
which exactly one is the true answer for that country (its population, its
first currency, or its first language), and correctIndex addresses exactly
that option, with 0 <= correctIndex < 4. -/
theorem generateQuestionSet_ok (fuel : Nat) (e : QuizEngine) (r : Rand) (qtype : String)
    (n : Nat) (htype : qtype = "population" ∨ qtype = "currency" ∨ qtype = "languages") :
    ∀ q ∈ (generateQuestionSet fuel e r qtype n).elim [] Prod.fst,
      ∃ c, (c ∈ e.countryPool ∨ c ∈ e.countries) ∧ q.country = c.name ∧
        QuestionOk (trueAnswer qtype c) q := by
  intro q hq
  rcases hres : generateQuestionSet fuel e r qtype n with - | ⟨qs, rOut⟩
  · rw [hres] at hq
    exact absurd hq (by simp)
  · rw [hres] at hq
    simp only [Option.elim] at hq
    rw [generateQuestionSet] at hres
    dsimp only at hres
    have hS1 : ∀ c ∈ (shuffleArray (getCountriesForType e r qtype n).2
        (getCountriesForType e r qtype n).1).1, c ∈ e.countryPool ++ e.countries := by
      intro c hc
      have hmem := (shuffleArray_perm _ _).mem_iff.mp hc
      exact List.mem_append.mpr ((getCountriesForType_mem e r qtype n c hmem).imp id id)
    split at hres
    · simp only [Option.some.injEq, Prod.mk.injEq] at hres
      obtain ⟨h1, -⟩ := hres
      rw [← h1] at hq
      exact absurd hq (by simp)
    · split at hres
      · exact absurd hres (by simp)
      · rename_i tried questions r3 heq1
        have hq1 := qLoop1_ok fuel qtype _ n (e.countryPool ++ e.countries) _ _ _ _ _ _ _
          hS1 (by simp) heq1
        split at hres
        · split at hres
          · exact absurd hres (by simp)
          · rename_i t2 questions2 r5 heq2
            have hS2 : ∀ c ∈ (shuffleArray r3 e.countries).1.filter
                (fun c => !tried.contains c.name), c ∈ e.countryPool ++ e.countries := by
              intro c hc
              have hm := List.mem_of_mem_filter hc
              exact List.mem_append.mpr (Or.inr ((shuffleArray_perm r3 e.countries).mem_iff.mp hm))
            have hq2 := qLoop2_ok fuel qtype _ n (e.countryPool ++ e.countries) _ _ _ _ _ _ _
              hS2 hq1 heq2
            simp only [Option.some.injEq, Prod.mk.injEq] at hres
            obtain ⟨h1, -⟩ := hres
            subst h1
            obtain ⟨c, hcS, hco, hok⟩ := hq2 q (List.take_subset _ _ hq)
            exact ⟨c, List.mem_append.mp hcS, hco, hok⟩
        · simp only [Option.some.injEq, Prod.mk.injEq] at hres
          obtain ⟨h1, -⟩ := hres
          subst h1
          obtain ⟨c, hcS, hco, hok⟩ := hq1 q (List.take_subset _ _ hq)
          exact ⟨c, List.mem_append.mp hcS, hco, hok⟩

/-- Claim C3 (amended): a generated question set never exceeds desiredCount
questions, and when the names of the loaded countries are pairwise
distinct, no two questions of the set are about the same country. Without
that hypothesis the second conjunct fails, see the counterexample. -/
theorem generateQuestionSet_no_dup (fuel : Nat) (e : QuizEngine) (r : Rand) (qtype : String)
    (n : Nat) (hnames : (e.countries.map Country.name).Nodup) :
    ((generateQuestionSet fuel e r qtype n).elim [] Prod.fst).length ≤ n ∧
    (((generateQuestionSet fuel e r qtype n).elim [] Prod.fst).map Question.country).Nodup := by
  rcases hres : generateQuestionSet fuel e r qtype n with - | ⟨qs, rOut⟩
  · simp [Option.elim]
  · simp only [Option.elim]
    rw [generateQuestionSet] at hres
    dsimp only at hres
    split at hres
    · simp only [Option.some.injEq, Prod.mk.injEq] at hres
      obtain ⟨h1, -⟩ := hres
      rw [← h1]
      simp
    · split at hres
      · exact absurd hres (by simp)
      · rename_i tried questions r3 heq1
        obtain ⟨hnd1, hin1⟩ := qLoop1_nodup fuel qtype _ n _ _ _ _ _ _ _
          (by simp) (by simp) heq1
        split at hres
        · split at hres
          · exact absurd hres (by simp)
          · rename_i t2 questions2 r5 heq2
            have hfpnd : (((shuffleArray r3 e.countries).1.filter
                (fun c => !tried.contains c.name)).map Country.name).Nodup := by
              have hperm : ((shuffleArray r3 e.countries).1.map Country.name).Perm
                  (e.countries.map Country.name) := (shuffleArray_perm r3 e.countries).map _
              exact ((List.filter_sublist _).map Country.name).nodup (hperm.nodup_iff.mpr hnames)
            have hfpfresh : ∀ c ∈ (shuffleArray r3 e.countries).1.filter
                (fun c => !tried.contains c.name), c.name ∉ tried := by
              intro c hc hmem
              have hcf := List.of_mem_filter hc
              simp only [Bool.not_eq_true', List.contains_eq_any_beq] at hcf
              rw [List.any_eq_false] at hcf
              exact absurd (by simp : (c.name == c.name) = true) (hcf c.name hmem)
            have hnd2 := qLoop2_nodup fuel qtype _ n _ _ _ _ _ _ _
              hnd1 hin1 hfpnd hfpfresh heq2
            simp only [Option.some.injEq, Prod.mk.injEq] at hres
            obtain ⟨h1, -⟩ := hres
            subst h1
            constructor
            · rw [List.length_take]; exact Nat.min_le_left _ _
            · rw [List.map_take]; exact ((List.take_sublist _ _).nodup hnd2)
        · simp only [Option.some.injEq, Prod.mk.injEq] at hres
          obtain ⟨h1, -⟩ := hres
          subst h1
          constructor
          · rw [List.length_take]; exact Nat.min_le_left _ _
          · rw [List.map_take]; exact ((List.take_sublist _ _).nodup hnd1)

/-! ### Unsupported question types (claim C7) -/

/-- Claim C7: for any type other than population, currency and languages,
hasDataForType rejects every country, so getCountriesForType finds no
candidates and generateQuestionSet returns the empty list. -/
theorem generateQuestionSet_unknown_type (fuel : Nat) (e : QuizEngine) (r : Rand)
    (qtype : String) (n : Nat)
    (htype : qtype ∉ (["population", "currency", "languages"] : List String)) :
    ∃ r', generateQuestionSet fuel e r qtype n = some ([], r') := by
  simp only [List.mem_cons, List.mem_singleton, not_or] at htype
  obtain ⟨h1, h2, h3⟩ := htype
  have hdata : ∀ c, hasDataForType c qtype = false := by
    intro c
    simp [hasDataForType, h1, h2, h3]
  have hfilter : ∀ (l : List Country), l.filter (fun c => hasDataForType c qtype) = [] := by
    intro l
    rw [List.filter_eq_nil_iff]
    intro a _
    simp [hdata a]
  have hg : (getCountriesForType e r qtype n).1 = [] := by
    rw [getCountriesForType]
    dsimp only
    simp only [hfilter]
    simp [uniqueByName, uniqueByNameAux]
  refine ⟨(getCountriesForType e r qtype n).2, ?_⟩
  rw [generateQuestionSet]
  dsimp only
  rw [hg]
  simp

/-! ### Difficulty handling (claims C9 and C10) -/

/-- Claim C9: setDifficulty with a level that is not one of easy, medium
and hard (null and undefined included, both modelled by none, and the
falsy empty string) is a no-op: the state is unchanged and no event is
dispatched. -/
theorem setDifficulty_invalid (e : QuizEngine) (r : Rand) (level : Option String)
    (reload : Bool)
    (hlvl : ∀ s, level = some s → s ∉ (["easy", "medium", "hard"] : List String)) :
    setDifficulty e r level reload = (e, [], r) := by
  match level with
  | none => rfl
  | some s =>
    have hs := hlvl s rfl
    simp only [List.mem_cons, List.mem_singleton, not_or] at hs
    have hcond : s = "" ∨ (difficultySettings s).isNone := by
      right
      simp [difficultySettings, hs.1, hs.2.1, hs.2.2]
    rw [setDifficulty, if_pos hcond]

theorem populateCountryPool_difficulty (e : QuizEngine) (r : Rand) :
    (populateCountryPool e r).1.difficulty = e.difficulty := by
  rw [populateCountryPool]
  split <;> rfl

theorem setDifficulty_valid (e : QuizEngine) (r : Rand) (level : Option String)
    (reload : Bool) (hv : e.difficulty ∈ difficultyOrder) :
    (setDifficulty e r level reload).1.difficulty ∈ difficultyOrder := by
  match level with
  | none => exact hv
  | some s =>
    rw [setDifficulty]
    split
    · exact hv
    · rename_i hcond
      rw [not_or] at hcond
      obtain ⟨hne, hsome⟩ := hcond
      have hs : s ∈ difficultyOrder := by
        by_contra hns
        simp only [difficultyOrder, List.mem_cons, List.mem_singleton, not_or] at hns
        exact hsome (by simp [difficultySettings, hns.1, hns.2.1, hns.2.2])
      dsimp only
      split
      · have hd := populateCountryPool_difficulty { e with difficulty := s } r
        dsimp only
        rw [hd]
        exact hs
      · exact hs

theorem upgradeDifficulty_easy (e : QuizEngine) (r : Rand) (h : e.difficulty = "easy") :
    (upgradeDifficulty e r).1 = { e with difficulty := "medium" } := by
  rw [upgradeDifficulty]
  dsimp only [getDifficulty]
  rw [h]
  rw [if_neg (by decide)]
  rw [show difficultyOrder.getD (difficultyOrder.indexOf "easy" + 1) "" = "medium" from rfl]
  rw [setDifficulty, if_neg (by decide)]
  rfl

theorem upgradeDifficulty_medium (e : QuizEngine) (r : Rand) (h : e.difficulty = "medium") :
    (upgradeDifficulty e r).1 = { e with difficulty := "hard" } := by
  rw [upgradeDifficulty]
  dsimp only [getDifficulty]
  rw [h]
  rw [if_neg (by decide)]
  rw [show difficultyOrder.getD (difficultyOrder.indexOf "medium" + 1) "" = "hard" from rfl]
  rw [setDifficulty, if_neg (by decide)]
  rfl

theorem upgradeDifficulty_hard (e : QuizEngine) (r : Rand) (h : e.difficulty = "hard") :
    (upgradeDifficulty e r).1 = e := by
  rw [upgradeDifficulty]
  dsimp only [getDifficulty]
  rw [h]
  rw [if_pos (by decide)]

theorem downgradeDifficulty_easy (e : QuizEngine) (r : Rand) (h : e.difficulty = "easy") :
    (downgradeDifficulty e r).1 = e := by
  rw [downgradeDifficulty]
  dsimp only [getDifficulty]
  rw [h]
  rw [if_pos (by decide)]

theorem downgradeDifficulty_medium (e : QuizEngine) (r : Rand) (h : e.difficulty = "medium") :
    (downgradeDifficulty e r).1 = { e with difficulty := "easy" } := by
  rw [downgradeDifficulty]
  dsimp only [getDifficulty]
  rw [h]
  rw [if_neg (by decide)]
  rw [show difficultyOrder.getD (difficultyOrder.indexOf "medium" - 1) "" = "easy" from rfl]
  rw [setDifficulty, if_neg (by decide)]
  rfl

theorem downgradeDifficulty_hard (e : QuizEngine) (r : Rand) (h : e.difficulty = "hard") :
    (downgradeDifficulty e r).1 = { e with difficulty := "medium" } := by
  rw [downgradeDifficulty]
  dsimp only [getDifficulty]
  rw [h]
  rw [if_neg (by decide)]
  rw [show difficultyOrder.getD (difficultyOrder.indexOf "hard" - 1) "" = "medium" from rfl]
  rw [setDifficulty, if_neg (by decide)]
  rfl

/-- Claim C10: the difficulty is always one of easy, medium and hard: a
fresh engine starts at easy, setDifficulty preserves validity, and the
adaptive controller steps move at most one tier at a time, never past
hard and never below easy (the tier index is the position in
difficultyOrder). -/
theorem difficulty_invariant (e : QuizEngine) (r : Rand) (level : Option String)
    (reload : Bool) (hv : e.difficulty ∈ difficultyOrder) :
    QuizEngine.new.difficulty = "easy" ∧
    (setDifficulty e r level reload).1.difficulty ∈ difficultyOrder ∧
    (upgradeDifficulty e r).1.difficulty ∈ difficultyOrder ∧
    difficultyOrder.indexOf e.difficulty ≤
      difficultyOrder.indexOf (upgradeDifficulty e r).1.difficulty ∧
    difficultyOrder.indexOf (upgradeDifficulty e r).1.difficulty ≤
      difficultyOrder.indexOf e.difficulty + 1 ∧
    difficultyOrder.indexOf (upgradeDifficulty e r).1.difficulty ≤ 2 ∧
    (downgradeDifficulty e r).1.difficulty ∈ difficultyOrder ∧
    difficultyOrder.indexOf (downgradeDifficulty e r).1.difficulty ≤
      difficultyOrder.indexOf e.difficulty ∧
    difficultyOrder.indexOf e.difficulty ≤
      difficultyOrder.indexOf (downgradeDifficulty e r).1.difficulty + 1 := by
  refine ⟨rfl, setDifficulty_valid e r level reload hv, ?_⟩
  have hv' : e.difficulty = "easy" ∨ e.difficulty = "medium" ∨ e.difficulty = "hard" := by
    simpa [difficultyOrder] using hv
  rcases hv' with h | h | h
  · rw [upgradeDifficulty_easy e r h, downgradeDifficulty_easy e r h, h]
    exact ⟨(by decide : ("medium" : String) ∈ difficultyOrder),
      (by decide : difficultyOrder.indexOf "easy" ≤ difficultyOrder.indexOf "medium"),
      (by decide : difficultyOrder.indexOf "medium" ≤ difficultyOrder.indexOf "easy" + 1),
      (by decide : difficultyOrder.indexOf "medium" ≤ 2),
      (by decide : ("easy" : String) ∈ difficultyOrder),
      (by decide : difficultyOrder.indexOf "easy" ≤ difficultyOrder.indexOf "easy"),
      (by decide : difficultyOrder.indexOf "easy" ≤ difficultyOrder.indexOf "easy" + 1)⟩
  · rw [upgradeDifficulty_medium e r h, downgradeDifficulty_medium e r h, h]
    exact ⟨(by decide : ("hard" : String) ∈ difficultyOrder),
      (by decide : difficultyOrder.indexOf "medium" ≤ difficultyOrder.indexOf "hard"),
      (by decide : difficultyOrder.indexOf "hard" ≤ difficultyOrder.indexOf "medium" + 1),
      (by decide : difficultyOrder.indexOf "hard" ≤ 2),
      (by decide : ("easy" : String) ∈ difficultyOrder),
      (by decide : difficultyOrder.indexOf "easy" ≤ difficultyOrder.indexOf "medium"),
      (by decide : difficultyOrder.indexOf "medium" ≤ difficultyOrder.indexOf "easy" + 1)⟩
  · rw [upgradeDifficulty_hard e r h, downgradeDifficulty_hard e r h, h]
    exact ⟨(by decide : ("hard" : String) ∈ difficultyOrder),
      (by decide : difficultyOrder.indexOf "hard" ≤ difficultyOrder.indexOf "hard"),
      (by decide : difficultyOrder.indexOf "hard" ≤ difficultyOrder.indexOf "hard" + 1),
      (by decide : difficultyOrder.indexOf "hard" ≤ 2),
      (by decide : ("medium" : String) ∈ difficultyOrder),
      (by decide : difficultyOrder.indexOf "medium" ≤ difficultyOrder.indexOf "hard"),
      (by decide : difficultyOrder.indexOf "hard" ≤ difficultyOrder.indexOf "medium" + 1)⟩

/-! ### Country pool sampling (claims C5 and C6) -/

theorem candidateList_count (e : QuizEngine) (r : Rand) (c : Country) :
    (candidateList e r).1.count c ≤ e.countries.count c := by
  rw [candidateList]
  split
  · calc ((e.countries.mergeSort byPopularityDesc).take
          ((difficultySettings e.difficulty).getD
            { countries := 30, popularOnly := true }).countries).count c
        ≤ (e.countries.mergeSort byPopularityDesc).count c :=
          (List.take_sublist _ _).count_le c
      _ = e.countries.count c := (List.mergeSort_perm e.countries byPopularityDesc).count_eq c
  · calc ((shuffleArray r e.countries).1.take
          (min ((difficultySettings e.difficulty).getD
            { countries := 30, popularOnly := true }).countries e.countries.length)).count c
        ≤ (shuffleArray r e.countries).1.count c := (List.take_sublist _ _).count_le c
      _ = e.countries.count c := (shuffleArray_perm r e.countries).count_eq c

/-- Claim C5: with a non-empty loaded country list, populateCountryPool
sets countryPool to a sample without replacement of the loaded list: at
most REST_COUNTRIES_SAMPLE_SIZE entries, each entry occurring in the
loaded list no more often than it occurs there, so no list element is
taken twice. -/
theorem populateCountryPool_sample (e : QuizEngine) (r : Rand) (hne : e.countries ≠ []) :
    (populateCountryPool e r).1.countryPool.length ≤ REST_COUNTRIES_SAMPLE_SIZE ∧
    (∀ c, (populateCountryPool e r).1.countryPool.count c ≤ e.countries.count c) ∧
    (∀ c ∈ (populateCountryPool e r).1.countryPool, c ∈ e.countries) := by
  rw [populateCountryPool, if_neg (by simpa [List.length_eq_zero] using hne)]
  dsimp only
  have hcount : ∀ c, (((shuffleArray (candidateList e r).2 (candidateList e r).1).1).take
      REST_COUNTRIES_SAMPLE_SIZE).count c ≤ e.countries.count c := by
    intro c
    calc (((shuffleArray (candidateList e r).2 (candidateList e r).1).1).take
        REST_COUNTRIES_SAMPLE_SIZE).count c
        ≤ ((shuffleArray (candidateList e r).2 (candidateList e r).1).1).count c :=
          (List.take_sublist _ _).count_le c
      _ = (candidateList e r).1.count c :=
          (shuffleArray_perm (candidateList e r).2 (candidateList e r).1).count_eq c
      _ ≤ e.countries.count c := candidateList_count e r c
  refine ⟨?_, hcount, ?_⟩
  · rw [List.length_take]; exact Nat.min_le_left _ _
  · intro c hc
    have h1 : 0 < (((shuffleArray (candidateList e r).2 (candidateList e r).1).1).take
        REST_COUNTRIES_SAMPLE_SIZE).count c := List.count_pos_iff.mpr hc
    have h2 := hcount c
    exact List.count_pos_iff.mp (by omega)

/-- Claim C6: the candidate list of populateCountryPool per difficulty
tier: for easy it is the first 30 entries of the loaded countries sorted
by descending popularity; for medium and hard it is a prefix of length
min(100, n) respectively min(200, n) of a random permutation of the n
loaded countries. -/
theorem candidateList_tiers (e : QuizEngine) (r : Rand) :
    (e.difficulty = "easy" →
      ∃ l' : List Country, l'.Perm e.countries ∧
        l'.Pairwise (fun a b => b.popularity ≤ a.popularity) ∧
        (candidateList e r).1 = l'.take 30) ∧
    (e.difficulty = "medium" →
      ∃ l' : List Country, l'.Perm e.countries ∧
        (candidateList e r).1 = l'.take (min 100 e.countries.length)) ∧
    (e.difficulty = "hard" →
      ∃ l' : List Country, l'.Perm e.countries ∧
        (candidateList e r).1 = l'.take (min 200 e.countries.length)) := by
  refine ⟨?_, ?_, ?_⟩
  · intro h
    refine ⟨e.countries.mergeSort byPopularityDesc, List.mergeSort_perm _ _, ?_, ?_⟩
    · have htrans : ∀ (a b c : Country), byPopularityDesc a b → byPopularityDesc b c →
          byPopularityDesc a c := by
        intro a b c hab hbc
        simp only [byPopularityDesc, decide_eq_true_eq] at *
        omega
      have htotal : ∀ (a b : Country), byPopularityDesc a b || byPopularityDesc b a := by
        intro a b
        simp only [byPopularityDesc, Bool.or_eq_true, decide_eq_true_eq]
        omega
      have hs : (e.countries.mergeSort byPopularityDesc).Pairwise
          (fun a b => byPopularityDesc a b) := List.sorted_mergeSort htrans htotal e.countries
      exact hs.imp (fun hab => by simpa [byPopularityDesc] using hab)
    · rw [candidateList]
      rw [h]
      rfl
  · intro h
    refine ⟨(shuffleArray r e.countries).1, shuffleArray_perm r e.countries, ?_⟩
    rw [candidateList]
    rw [h]
    rfl
  · intro h
    refine ⟨(shuffleArray r e.countries).1, shuffleArray_perm r e.countries, ?_⟩
    rw [candidateList]
    rw [h]
    rfl

/-! ### Concrete instances: counterexample and witnesses -/

/-- Random source whose every draw picks index 0. -/
def zeroRand : Rand := { stream := fun _ => 0, cursor := 0 }

/-- Pool country of the duplicate-name counterexample. -/
def pearl : Country :=
  { name := "P", population := 1000000, popularity := 1000000, currencies := [], languages := [] }

/-- Country appearing twice, under the same name, in the loaded list of
the counterexample engine. -/
def xan : Country :=
  { name := "X", population := 2000000, popularity := 2000000, currencies := [], languages := [] }

/-- Engine whose loaded country list holds two entries with the same name;
nothing in the model forbids this state. -/
def dupNameEngine : QuizEngine :=
  { countries := [xan, xan], countryPool := [pearl], difficulty := "easy" }

/-- Claim C3 as stated fails on the code: the fallback loop of
generateQuestionSet never consults tried, so with two equally named
entries in the loaded list it builds one question for each entry and the
returned set holds two questions about country X. -/
theorem generateQuestionSet_dup_counterexample :
    (generateQuestionSet 10 dupNameEngine zeroRand "population" 3).map
      (fun out => out.1.map Question.country) = some ["P", "X", "X"] ∧
    ¬ (["P", "X", "X"] : List String).Nodup :=
  ⟨rfl, by decide⟩

/-- First witness country: full population, currency and language data. -/
def alba : Country :=
  { name := "Alba", population := 1000000, popularity := 1000000,
    currencies := ["Lek"], languages := ["Albanian"] }

/-- Second witness country: full population, currency and language data. -/
def brava : Country :=
  { name := "Brava", population := 2000000, popularity := 2000000,
    currencies := ["Real"], languages := ["Bravan"] }

/-- Concrete engine used by the witness instantiations. -/
def witEngine : QuizEngine :=
  { countries := [alba, brava], countryPool := [], difficulty := "medium" }

/-- First question generated by the witness run of generateQuestionSet. -/
def witQuestion : Question :=
  ((generateQuestionSet 10 witEngine zeroRand "population" 2).elim [] Prod.fst).headD
    ⟨"", "", "", [], 0, "", ""⟩

/-- Witness for claim C1 at a concrete engine, question type and question. -/
theorem generateQuestionSet_ok_witness :
    ∃ c, (c ∈ witEngine.countryPool ∨ c ∈ witEngine.countries) ∧
      witQuestion.country = c.name ∧ QuestionOk (trueAnswer "population" c) witQuestion :=
  generateQuestionSet_ok 10 witEngine zeroRand "population" 2 (Or.inl rfl) witQuestion
    (by decide)

/-- Witness for the amended claim C3 at a concrete engine with distinct
country names. -/
theorem generateQuestionSet_no_dup_witness :
    ((generateQuestionSet 10 witEngine zeroRand "population" 2).elim [] Prod.fst).length ≤ 2 ∧
    (((generateQuestionSet 10 witEngine zeroRand "population" 2).elim [] Prod.fst).map
      Question.country).Nodup :=
  generateQuestionSet_no_dup 10 witEngine zeroRand "population" 2 (by decide)

/-- Witness for claim C4 at a concrete correct label and the empty pool. -/
theorem generateOptions_four_witness :
    (((generateCurrencyOptions zeroRand "Euro" [] "Nowhere").1.length = 4 ∧
      (generateCurrencyOptions zeroRand "Euro" [] "Nowhere").1.Nodup ∧
      (generateCurrencyOptions zeroRand "Euro" [] "Nowhere").1.head? = some "Euro" ∧
      ∀ x ∈ (generateCurrencyOptions zeroRand "Euro" [] "Nowhere").1, x ≠ "") ∧
    ((generateLanguageOptions zeroRand "Euro" [] "Nowhere").1.length = 4 ∧
      (generateLanguageOptions zeroRand "Euro" [] "Nowhere").1.Nodup ∧
      (generateLanguageOptions zeroRand "Euro" [] "Nowhere").1.head? = some "Euro" ∧
      ∀ x ∈ (generateLanguageOptions zeroRand "Euro" [] "Nowhere").1, x ≠ "")) :=
  generateOptions_four zeroRand "Euro" [] "Nowhere" (by decide)

/-- Witness for claim C5 at a concrete engine with loaded countries. -/
theorem populateCountryPool_sample_witness :
    (populateCountryPool witEngine zeroRand).1.countryPool.length ≤
      REST_COUNTRIES_SAMPLE_SIZE ∧
    (∀ c, (populateCountryPool witEngine zeroRand).1.countryPool.count c ≤
      witEngine.countries.count c) ∧
    (∀ c ∈ (populateCountryPool witEngine zeroRand).1.countryPool,
      c ∈ witEngine.countries) :=
  populateCountryPool_sample witEngine zeroRand (by decide)

/-- Witness for claim C6 at a concrete engine in the medium tier. -/
theorem candidateList_tiers_witness :
    ∃ l' : List Country, l'.Perm witEngine.countries ∧
      (candidateList witEngine zeroRand).1 = l'.take (min 100 witEngine.countries.length) :=
  (candidateList_tiers witEngine zeroRand).2.1 rfl

/-- Witness for claim C7 at a concrete unsupported type. -/
theorem generateQuestionSet_unknown_type_witness :
    ∃ r', generateQuestionSet 5 witEngine zeroRand "capital" 3 = some ([], r') :=
  generateQuestionSet_unknown_type 5 witEngine zeroRand "capital" 3 (by decide)

/-- Witness for claim C9 at a concrete invalid level. -/
theorem setDifficulty_invalid_witness :
    setDifficulty witEngine zeroRand (some "extreme") true = (witEngine, [], zeroRand) :=
  setDifficulty_invalid witEngine zeroRand (some "extreme") true
    (fun s hs => by injection hs with h; subst h; decide)

/-- Witness for claim C10 at a concrete engine in the medium tier. -/
theorem difficulty_invariant_witness :
    QuizEngine.new.difficulty = "easy" ∧
    (setDifficulty witEngine zeroRand (some "hard") false).1.difficulty ∈ difficultyOrder ∧
    (upgradeDifficulty witEngine zeroRand).1.difficulty ∈ difficultyOrder ∧
    difficultyOrder.indexOf witEngine.difficulty ≤
      difficultyOrder.indexOf (upgradeDifficulty witEngine zeroRand).1.difficulty ∧
    difficultyOrder.indexOf (upgradeDifficulty witEngine zeroRand).1.difficulty ≤
      difficultyOrder.indexOf witEngine.difficulty + 1 ∧
    difficultyOrder.indexOf (upgradeDifficulty witEngine zeroRand).1.difficulty ≤ 2 ∧
    (downgradeDifficulty witEngine zeroRand).1.difficulty ∈ difficultyOrder ∧
    difficultyOrder.indexOf (downgradeDifficulty witEngine zeroRand).1.difficulty ≤
      difficultyOrder.indexOf witEngine.difficulty ∧
    difficultyOrder.indexOf witEngine.difficulty ≤
      difficultyOrder.indexOf (downgradeDifficulty witEngine zeroRand).1.difficulty + 1 :=
  difficulty_invariant witEngine zeroRand (some "hard") false (by decide)

end QuizModel
